import Mathlib

/-!
Verification of the Memory Graph Storage & Background Discovery Engine.

The Python source (`memory_core.py`, `dreamer_ai.py`) is shallowly embedded:

* `context` dictionaries are JSON values (`Jval`); `json.dumps` is embedded
  as `jvalDumps`/`ctxDumps`, and the `json.loads (json.dumps x) = x`
  round-trip on JSON values is modelled by keeping the structured value in
  the row alongside its serialized text.
* timestamps (`datetime.now(timezone.utc)` and their ISO-8601 renderings,
  whose lexicographic order agrees with chronological order) are modelled
  as natural numbers supplied by the caller as `now` arguments;
* `priority_score` (a SQLite REAL that the code never sets to anything but
  its default 1.0) is modelled as a rational number;
* SQLite's `LIKE` operator (default collation: `%`/`_` wildcards,
  ASCII-case-insensitive comparison) is embedded as `likeMatch`;
* the node table is a list of rows in insertion order; `ORDER BY ... LIMIT`
  becomes a stable merge sort followed by `List.take`.
-/

namespace MemoryMCP

/-- JSON-representable values: the contents of a node's `context` mapping.
Numbers are modelled as integers (no claim depends on fractional JSON
numbers). -/
inductive Jval where
  | str (s : String)
  | num (n : Int)
  | bool (b : Bool)
  | null
  | arr (elems : List Jval)
  | obj (fields : List (String × Jval))
  deriving Repr

mutual

/-- Decidable equality for JSON values (hand-written because the nested
inductive defeats the deriving handler). -/
def Jval.decEq : (a b : Jval) → Decidable (a = b)
  | .str a, .str b =>
      if h : a = b then isTrue (by rw [h]) else isFalse (fun hh => h (Jval.str.inj hh))
  | .num a, .num b =>
      if h : a = b then isTrue (by rw [h]) else isFalse (fun hh => h (Jval.num.inj hh))
  | .bool a, .bool b =>
      if h : a = b then isTrue (by rw [h]) else isFalse (fun hh => h (Jval.bool.inj hh))
  | .null, .null => isTrue rfl
  | .arr a, .arr b =>
      match Jval.decEqList a b with
      | isTrue h => isTrue (by rw [h])
      | isFalse h => isFalse (fun hh => h (Jval.arr.inj hh))
  | .obj a, .obj b =>
      match Jval.decEqObj a b with
      | isTrue h => isTrue (by rw [h])
      | isFalse h => isFalse (fun hh => h (Jval.obj.inj hh))
  | .str _, .num _ | .str _, .bool _ | .str _, .null | .str _, .arr _ | .str _, .obj _ =>
      isFalse (fun h => Jval.noConfusion h)
  | .num _, .str _ | .num _, .bool _ | .num _, .null | .num _, .arr _ | .num _, .obj _ =>
      isFalse (fun h => Jval.noConfusion h)
  | .bool _, .str _ | .bool _, .num _ | .bool _, .null | .bool _, .arr _ | .bool _, .obj _ =>
      isFalse (fun h => Jval.noConfusion h)
  | .null, .str _ | .null, .num _ | .null, .bool _ | .null, .arr _ | .null, .obj _ =>
      isFalse (fun h => Jval.noConfusion h)
  | .arr _, .str _ | .arr _, .num _ | .arr _, .bool _ | .arr _, .null | .arr _, .obj _ =>
      isFalse (fun h => Jval.noConfusion h)
  | .obj _, .str _ | .obj _, .num _ | .obj _, .bool _ | .obj _, .null | .obj _, .arr _ =>
      isFalse (fun h => Jval.noConfusion h)

/-- Decidable equality for lists of JSON values. -/
def Jval.decEqList : (a b : List Jval) → Decidable (a = b)
  | [], [] => isTrue rfl
  | [], _ :: _ => isFalse (fun h => List.noConfusion h)
  | _ :: _, [] => isFalse (fun h => List.noConfusion h)
  | a :: as, b :: bs =>
      match Jval.decEq a b with
      | isFalse h => isFalse (fun hh => by injection hh with h1 h2; exact h h1)
      | isTrue h1 =>
          match Jval.decEqList as bs with
          | isTrue h2 => isTrue (by rw [h1, h2])
          | isFalse h => isFalse (fun hh => by injection hh with _ h2; exact h h2)

/-- Decidable equality for JSON object field lists. -/
def Jval.decEqObj : (a b : List (String × Jval)) → Decidable (a = b)
  | [], [] => isTrue rfl
  | [], _ :: _ => isFalse (fun h => List.noConfusion h)
  | _ :: _, [] => isFalse (fun h => List.noConfusion h)
  | (k, v) :: as, (l, w) :: bs =>
      if hk : k = l then
        match Jval.decEq v w with
        | isFalse h =>
            isFalse (fun hh => by
              injection hh with h1 h2
              injection h1 with hk1 hv1
              exact h hv1)
        | isTrue hv =>
            match Jval.decEqObj as bs with
            | isTrue h2 => isTrue (by rw [hk, hv, h2])
            | isFalse h => isFalse (fun hh => by injection hh with _ h2; exact h h2)
      else
        isFalse (fun hh => by
          injection hh with h1 h2
          injection h1 with hk1 hv1
          exact hk hk1)

end

instance : DecidableEq Jval := Jval.decEq

/-- A `context` dictionary: string keys with JSON values, in insertion
order. Python dict keys are unique; operations below use first-match
lookup, which agrees with dict semantics on duplicate-free key lists. -/
abbrev Ctx := List (String × Jval)

/-- Python `dict.get k`: the value at the first binding of `k`, if any. -/
def ctxGet (c : Ctx) (k : String) : Option Jval :=
  (c.find? (fun kv => kv.1 == k)).map (fun kv => kv.2)

/-- Escaping applied by `json.dumps` to string content. Only the quote and
backslash escapes are modelled; `\uXXXX` escapes of control and non-ASCII
characters are left as the raw character (no claim depends on them). -/
def jescapeChar (c : Char) : String :=
  if c = '"' then "\\\"" else if c = '\\' then "\\\\" else String.singleton c

/-- Escape a string body for JSON serialization. -/
def jescape (s : String) : String :=
  String.join (s.data.map jescapeChar)

mutual

/-- Embedding of `json.dumps` with its default separators (`", "` between
items and `": "` between a key and a value). -/
def jvalDumps : Jval → String
  | .str s => "\"" ++ jescape s ++ "\""
  | .num n => toString n
  | .bool b => if b then "true" else "false"
  | .null => "null"
  | .arr elems => "[" ++ jarrDumps elems ++ "]"
  | .obj fields => "\x7b" ++ jobjDumps fields ++ "\x7d"

/-- Serialize the elements of a JSON array, comma-separated. -/
def jarrDumps : List Jval → String
  | [] => ""
  | [v] => jvalDumps v
  | v :: rest => jvalDumps v ++ ", " ++ jarrDumps rest

/-- Serialize the fields of a JSON object, comma-separated. -/
def jobjDumps : List (String × Jval) → String
  | [] => ""
  | [kv] => "\"" ++ jescape kv.1 ++ "\": " ++ jvalDumps kv.2
  | kv :: rest =>
      "\"" ++ jescape kv.1 ++ "\": " ++ jvalDumps kv.2 ++ ", " ++ jobjDumps rest

end

/-- Serialization of a whole `context` dictionary (`json.dumps(memory.context)`). -/
def ctxDumps (c : Ctx) : String :=
  jvalDumps (.obj c)

/-- Fold an ASCII upper-case letter to lower case; other characters are
unchanged. This is the character comparison SQLite's default `LIKE`
collation applies (case-insensitive for ASCII only). -/
def foldAscii (c : Char) : Char :=
  if 'A' ≤ c ∧ c ≤ 'Z' then Char.ofNat (c.toNat + 32) else c

/-- Fuelled SQLite `LIKE` pattern matching over character lists: `%`
matches any run of characters, `_` matches exactly one character, and
every other pattern character must match the text character up to ASCII
case folding. Every recursive call strictly decreases the combined length
of pattern and text, so fuel `ps.length + s.length + 1` always suffices;
the fuel only makes the recursion structural. -/
def likeMatchF : Nat → List Char → List Char → Bool
  | 0, _, _ => false
  | _ + 1, [], s => s.isEmpty
  | f + 1, p :: ps, [] =>
      if p = '%' then likeMatchF f ps [] else false
  | f + 1, p :: ps, c :: s' =>
      if p = '%' then likeMatchF f ps (c :: s') || likeMatchF f (p :: ps) s'
      else
        (if p = '_' then true else foldAscii p == foldAscii c) &&
          likeMatchF f ps s'

/-- SQLite `LIKE` pattern matching (see `likeMatchF`). -/
def likeMatch (ps s : List Char) : Bool :=
  likeMatchF (ps.length + s.length + 1) ps s

/-- SQLite `column LIKE '%' || query || '%'`, as issued by
`search_memories`. -/
def sqlLikeContains (query text : String) : Bool :=
  likeMatch ("%" ++ query ++ "%").data text.data

/-- A row of the `memory_nodes` table / the `MemoryNode` pydantic model.
The `context` column stores `json.dumps(context)`; the structured value is
kept in the row because `json.loads` inverts `json.dumps` on JSON values. -/
structure MemoryNode where
  id : String
  content : String
  context : Ctx
  created_at : Nat
  last_accessed_at : Nat
  access_count : Nat
  priority_score : Rat
  node_type : String
  deriving Repr, DecidableEq

/-- The `memory_nodes` table, in rowid (insertion) order. -/
abbrev DB := List MemoryNode

/-- First row with the given primary key (`SELECT * FROM memory_nodes WHERE id = ?`). -/
def findNode (db : DB) (id : String) : Option MemoryNode :=
  db.find? (fun n => n.id == id)

namespace MemoryDatabase

/-- Embedding of `MemoryDatabase.store_memory`: `INSERT` of a fully-formed
node. The `id` column is the primary key, so inserting a duplicate id
raises (an `IntegrityError`, re-raised by the method); on success the row
is appended and the memory's id returned. -/
def store_memory (db : DB) (memory : MemoryNode) : Except String (DB × String) :=
  if db.any (fun n => n.id == memory.id) then
    .error "UNIQUE constraint failed: memory_nodes.id"
  else
    .ok (db ++ [memory], memory.id)

/-- Embedding of `MemoryDatabase.get_memory`: on a hit, set
`last_accessed_at = now` and `access_count += 1` in the table and return
the node rebuilt from the row with the incremented count and the new
timestamp; on a miss return the table unchanged and no node. -/
def get_memory (db : DB) (memory_id : String) (now : Nat) :
    DB × Option MemoryNode :=
  match findNode db memory_id with
  | none => (db, none)
  | some row =>
      let updated : MemoryNode :=
        { row with last_accessed_at := now, access_count := row.access_count + 1 }
      (db.map (fun n => if n.id == memory_id then
          { n with last_accessed_at := now, access_count := n.access_count + 1 }
        else n),
       some updated)

/-- Ordering used by `search_memories`' `ORDER BY priority_score DESC,
last_accessed_at DESC`: `a` sorts no later than `b`. -/
def searchOrder (a b : MemoryNode) : Prop :=
  b.priority_score < a.priority_score ∨
    (a.priority_score = b.priority_score ∧ b.last_accessed_at ≤ a.last_accessed_at)

instance : DecidableRel searchOrder := fun a b => by
  unfold searchOrder; infer_instance

instance : IsTotal MemoryNode searchOrder where
  total a b := by
    unfold searchOrder
    rcases lt_trichotomy a.priority_score b.priority_score with h | h | h
    · exact .inr (.inl h)
    · rcases Nat.le_total b.last_accessed_at a.last_accessed_at with h' | h'
      · exact .inl (.inr ⟨h, h'⟩)
      · exact .inr (.inr ⟨h.symm, h'⟩)
    · exact .inl (.inl h)

instance : IsTrans MemoryNode searchOrder where
  trans a b c hab hbc := by
    unfold searchOrder at *
    rcases hab with h1 | ⟨h1, h1'⟩ <;> rcases hbc with h2 | ⟨h2, h2'⟩
    · exact .inl (h2.trans h1)
    · exact .inl (h2 ▸ h1)
    · exact .inl (h1 ▸ h2)
    · exact .inr ⟨h1.trans h2, h2'.trans h1'⟩

/-- The `WHERE content LIKE '%q%' OR context LIKE '%q%'` filter of
`search_memories`, applied to a row. -/
def rowMatches (query : String) (n : MemoryNode) : Bool :=
  sqlLikeContains query n.content || sqlLikeContains query (ctxDumps n.context)

/-- Embedding of `MemoryDatabase.search_memories`: filter by the `LIKE`
condition, order by priority then recency (both descending — SQLite only
fixes the order of the sort keys, so the sort is modelled by a sorted
permutation), truncate to `limit`. -/
def search_memories (db : DB) (query : String) (limit : Nat) : List MemoryNode :=
  ((db.filter (rowMatches query)).insertionSort searchOrder).take limit

end MemoryDatabase

/-- The dictionary `MemoryCore.recall_memory` returns for a hit. -/
structure RecallResult where
  id : String
  content : String
  context : Ctx
  created_at : Nat
  last_accessed_at : Nat
  access_count : Nat
  priority_score : Rat
  node_type : String
  deriving Repr, DecidableEq

/-- The dictionary `MemoryCore.query_memories` returns per result (note:
no access statistics are included). -/
structure QueryResult where
  id : String
  content : String
  context : Ctx
  created_at : Nat
  priority_score : Rat
  node_type : String
  deriving Repr, DecidableEq

namespace MemoryCore

/-- The `MemoryNode` pydantic constructor as called by
`MemoryCore.store_memory`: all defaults apply (`access_count = 0`,
`priority_score = 1.0`, `node_type = "normal"`, both timestamps taken at
creation, a fresh UUID `id` — the UUID draw is the caller-supplied `id`
here). -/
def newNode (content : String) (context : Ctx) (id : String) (now : Nat) :
    MemoryNode :=
  { id := id
    content := content
    context := context
    created_at := now
    last_accessed_at := now
    access_count := 0
    priority_score := 1
    node_type := "normal" }

/-- Embedding of `MemoryCore.store_memory`: build a fresh `MemoryNode` and
insert it. No validation of `content` is performed by the source. -/
def store_memory (db : DB) (content : String) (context : Ctx)
    (id : String) (now : Nat) : Except String (DB × String) :=
  MemoryDatabase.store_memory db (newNode content context id now)

/-- The result-dictionary formatting `MemoryCore.query_memories` applies
to each found node (no access statistics are exposed). -/
def toQR (m : MemoryNode) : QueryResult :=
  { id := m.id
    content := m.content
    context := m.context
    created_at := m.created_at
    priority_score := m.priority_score
    node_type := m.node_type }

/-- Embedding of `MemoryCore.query_memories`: search, then format each
node as a result dictionary. -/
def query_memories (db : DB) (query : String) (limit : Nat) : List QueryResult :=
  (MemoryDatabase.search_memories db query limit).map toQR

/-- Embedding of `MemoryCore.recall_memory`: look the node up (updating
access statistics) and format it, or return nothing on a miss. -/
def recall_memory (db : DB) (memory_id : String) (now : Nat) :
    DB × Option RecallResult :=
  match MemoryDatabase.get_memory db memory_id now with
  | (db', none) => (db', none)
  | (db', some m) =>
      (db', some
        { id := m.id
          content := m.content
          context := m.context
          created_at := m.created_at
          last_accessed_at := m.last_accessed_at
          access_count := m.access_count
          priority_score := m.priority_score
          node_type := m.node_type })

end MemoryCore

/-! ### Shared lemmas about the storage operations -/

theorem store_ok_of_fresh {db : DB} {m : MemoryNode}
    (h : ∀ n ∈ db, n.id ≠ m.id) :
    MemoryDatabase.store_memory db m = .ok (db ++ [m], m.id) := by
  have hany : db.any (fun n => n.id == m.id) = false := by
    simp only [List.any_eq_false]
    intro x hx
    simpa using h x hx
  simp [MemoryDatabase.store_memory, hany]

theorem findNode_append_fresh {db : DB} {m : MemoryNode}
    (h : ∀ n ∈ db, n.id ≠ m.id) :
    findNode (db ++ [m]) m.id = some m := by
  unfold findNode
  rw [List.find?_append]
  have h1 : db.find? (fun n => n.id == m.id) = none := by
    simp only [List.find?_eq_none]
    intro x hx
    simpa using h x hx
  simp [h1]

/-! ### Claim C1 — store/recall round trip -/

/-- Claim C1: for every pair `(content, context)` with non-empty content,
recalling the id returned by a successful store yields a node whose
content equals the stored content and whose context equals the stored
context. The stored id (the UUID draw) is assumed fresh, which is the
defining property of UUID assignment. -/
theorem C1_store_recall_roundtrip (db : DB) (content : String) (context : Ctx)
    (id : String) (t1 t2 : Nat)
    (hcontent : content ≠ "")
    (hid : ∀ n ∈ db, n.id ≠ id) :
    ∃ db' : DB,
      MemoryCore.store_memory db content context id t1 = .ok (db', id) ∧
      ∃ r : RecallResult,
        (MemoryCore.recall_memory db' id t2).2 = some r ∧
        r.content = content ∧ r.context = context := by
  have hfresh : ∀ n ∈ db, n.id ≠ (MemoryCore.newNode content context id t1).id := hid
  refine ⟨db ++ [MemoryCore.newNode content context id t1], store_ok_of_fresh hfresh, ?_⟩
  have hfind := findNode_append_fresh hfresh
  have hrec : (MemoryCore.recall_memory (db ++ [MemoryCore.newNode content context id t1]) id t2).2 =
      some { id := id, content := content, context := context, created_at := t1,
             last_accessed_at := t2, access_count := 1, priority_score := 1, node_type := "normal" } := by
    simp only [MemoryCore.newNode] at hfind
    unfold MemoryCore.recall_memory MemoryDatabase.get_memory
    simp only [MemoryCore.newNode]
    rw [hfind]
  exact ⟨_, hrec, rfl, rfl⟩

/-- Witness for C1 at a concrete input. -/
theorem C1_roundtrip_witness :
    ∃ db' : DB,
      MemoryCore.store_memory [] "Meeting with Alice" [("project", Jval.str "Q4")] "id1" 0 =
        .ok (db', "id1") ∧
      ∃ r : RecallResult,
        (MemoryCore.recall_memory db' "id1" 3).2 = some r ∧
        r.content = "Meeting with Alice" ∧ r.context = [("project", Jval.str "Q4")] :=
  C1_store_recall_roundtrip [] "Meeting with Alice" [("project", Jval.str "Q4")]
    "id1" 0 3 (by decide) (by simp)

/-! ### Claim C2 — empty content

The claim states that storing empty content fails with `ValidationError`
and persists nothing. The source performs no content validation at all:
`MemoryCore.store_memory` builds the node unconditionally, the pydantic
field `content: str` accepts `""`, and the `content TEXT NOT NULL` column
accepts the empty string. The empty store therefore succeeds and persists
a node. -/

/-- Counterexample to claim C2 as stated: storing empty content on an
empty database succeeds and persists one node (the node count changes
from 0 to 1); no error of any kind is raised. -/
theorem C2_counterexample :
    MemoryCore.store_memory [] "" [] "id0" 0 =
      .ok ([MemoryCore.newNode "" [] "id0" 0], "id0") ∧
    ([MemoryCore.newNode "" [] "id0" 0] : DB).length = ([] : DB).length + 1 :=
  ⟨rfl, rfl⟩

/-- Claim C2 (amended): calling store with empty content succeeds like any
other store — no validation is performed — and persists a node with empty
content, increasing the node count by exactly 1. -/
theorem C2_empty_content_store_succeeds (db : DB) (context : Ctx)
    (id : String) (now : Nat)
    (hid : ∀ n ∈ db, n.id ≠ id) :
    ∃ db' : DB,
      MemoryCore.store_memory db "" context id now = .ok (db', id) ∧
      db'.length = db.length + 1 ∧
      findNode db' id = some (MemoryCore.newNode "" context id now) := by
  have hfresh : ∀ n ∈ db, n.id ≠ (MemoryCore.newNode "" context id now).id := hid
  refine ⟨db ++ [MemoryCore.newNode "" context id now],
    store_ok_of_fresh hfresh, ?_, findNode_append_fresh hfresh⟩
  simp

/-- Witness for the amended C2 at a concrete input. -/
theorem C2_empty_store_witness :
    ∃ db' : DB,
      MemoryCore.store_memory [] "" [("k", Jval.num 7)] "id2" 4 = .ok (db', "id2") ∧
      db'.length = ([] : DB).length + 1 ∧
      findNode db' "id2" = some (MemoryCore.newNode "" [("k", Jval.num 7)] "id2" 4) :=
  C2_empty_content_store_succeeds [] [("k", Jval.num 7)] "id2" 4 (by simp)

/-! ### Lemmas about SQLite `LIKE` matching -/

/-- The fuelled matcher does not depend on the fuel, as long as the fuel
exceeds the combined length of pattern and text. -/
theorem likeMatchF_fuel : ∀ (f g : Nat) (ps s : List Char),
    ps.length + s.length < f → ps.length + s.length < g →
    likeMatchF f ps s = likeMatchF g ps s := by
  intro f
  induction f with
  | zero => intro g ps s hf _; exact absurd hf (by omega)
  | succ n ih =>
    intro g ps s hf hg
    cases g with
    | zero => exact absurd hg (by omega)
    | succ m =>
      cases ps with
      | nil => simp [likeMatchF]
      | cons p ps =>
        cases s with
        | nil =>
          simp only [likeMatchF]
          by_cases hp : p = '%'
          · rw [if_pos hp, if_pos hp,
              ih m ps [] (by simp only [List.length_cons, List.length_nil] at hf ⊢; omega)
                (by simp only [List.length_cons, List.length_nil] at hg ⊢; omega)]
          · rw [if_neg hp, if_neg hp]
        | cons c s' =>
          simp only [likeMatchF]
          by_cases hp : p = '%'
          · rw [if_pos hp, if_pos hp,
              ih m ps (c :: s') (by simp only [List.length_cons] at hf ⊢; omega)
                (by simp only [List.length_cons] at hg ⊢; omega),
              ih m (p :: ps) s' (by simp only [List.length_cons] at hf ⊢; omega)
                (by simp only [List.length_cons] at hg ⊢; omega)]
          · rw [if_neg hp, if_neg hp,
              ih m ps s' (by simp only [List.length_cons] at hf ⊢; omega)
                (by simp only [List.length_cons] at hg ⊢; omega)]

theorem likeMatch_nil (s : List Char) : likeMatch [] s = s.isEmpty := rfl

theorem likeMatch_pct_nil (ps : List Char) :
    likeMatch ('%' :: ps) [] = likeMatch ps [] := by
  unfold likeMatch
  simp only [likeMatchF, if_true, List.length_cons, List.length_nil]

theorem likeMatch_pct_cons (ps : List Char) (c : Char) (s : List Char) :
    likeMatch ('%' :: ps) (c :: s) = (likeMatch ps (c :: s) || likeMatch ('%' :: ps) s) := by
  unfold likeMatch
  simp only [likeMatchF, if_true, List.length_cons]
  rw [likeMatchF_fuel (ps.length + 1 + (s.length + 1)) (ps.length + (s.length + 1) + 1) ps (c :: s)
      (by simp only [List.length_cons]; omega) (by simp only [List.length_cons]; omega),
    likeMatchF_fuel (ps.length + 1 + (s.length + 1)) (ps.length + 1 + s.length + 1) ('%' :: ps) s
      (by simp only [List.length_cons]; omega) (by simp only [List.length_cons]; omega)]

theorem likeMatch_cons_nil (p : Char) (ps : List Char) (hp : p ≠ '%') :
    likeMatch (p :: ps) [] = false := by
  unfold likeMatch
  simp only [likeMatchF, if_neg hp]

theorem likeMatch_cons_cons (p : Char) (ps : List Char) (c : Char) (s : List Char)
    (hp : p ≠ '%') :
    likeMatch (p :: ps) (c :: s) =
      ((if p = '_' then true else foldAscii p == foldAscii c) && likeMatch ps s) := by
  unfold likeMatch
  simp only [likeMatchF, if_neg hp, List.length_cons]
  rw [likeMatchF_fuel (ps.length + 1 + (s.length + 1)) (ps.length + s.length + 1) ps s
      (by omega) (by omega)]

/-- A trailing `%` pattern matches any text. -/
theorem likeMatch_pct_any (s : List Char) : likeMatch ['%'] s = true := by
  induction s with
  | nil => rfl
  | cons c s ih => rw [likeMatch_pct_cons, ih, Bool.or_true]

/-- A leading `%` can swallow any prefix of the text. -/
theorem likeMatch_pct_append {ps s : List Char} (pre : List Char)
    (h : likeMatch ps s = true) : likeMatch ('%' :: ps) (pre ++ s) = true := by
  induction pre with
  | nil =>
    cases s with
    | nil => rw [List.nil_append, likeMatch_pct_nil]; exact h
    | cons c s' => rw [List.nil_append, likeMatch_pct_cons, h, Bool.true_or]
  | cons a pre ih => rw [List.cons_append, likeMatch_pct_cons, ih, Bool.or_true]

/-- Any pattern matches a literal copy of itself followed by whatever its
remainder matches (wildcards in the copied part only make matching more
permissive). -/
theorem likeMatch_lit_append (q : List Char) {ps s : List Char}
    (h : likeMatch ps s = true) : likeMatch (q ++ ps) (q ++ s) = true := by
  induction q with
  | nil => simpa using h
  | cons c q ih =>
    by_cases hc : c = '%'
    · subst hc
      rw [List.cons_append, List.cons_append, likeMatch_pct_cons]
      have h2 : likeMatch ('%' :: (q ++ ps)) ([] ++ (q ++ s)) = true :=
        likeMatch_pct_append [] ih
      rw [List.nil_append] at h2
      rw [h2, Bool.or_true]
    · rw [List.cons_append, List.cons_append, likeMatch_cons_cons c (q ++ ps) c (q ++ s) hc, ih]
      by_cases hu : c = '_'
      · rw [if_pos hu, Bool.true_and]
      · rw [if_neg hu, beq_self_eq_true, Bool.true_and]

theorem likeMatch_double_pct (s : List Char) : likeMatch ['%', '%'] s = true := by
  have h := @likeMatch_pct_append ['%'] [] s (by rfl)
  simpa using h

theorem pat_data (q : String) : ("%" ++ q ++ "%").data = '%' :: (q.data ++ ['%']) := by
  simp [String.data_append]

/-- A text containing the query verbatim satisfies the `LIKE '%q%'`
condition. -/
theorem sqlLikeContains_substring (q text : String) (pre post : List Char)
    (htext : text.data = pre ++ (q.data ++ post)) :
    sqlLikeContains q text = true := by
  unfold sqlLikeContains
  rw [htext, pat_data]
  exact likeMatch_pct_append pre (likeMatch_lit_append q.data (likeMatch_pct_any post))

/-- The empty query (`LIKE '%%'`) matches every text. -/
theorem sqlLikeContains_empty (s : String) : sqlLikeContains "" s = true := by
  unfold sqlLikeContains
  have h : ("%" ++ "" ++ "%").data = ['%', '%'] := by rfl
  rw [h]
  exact likeMatch_double_pct s.data

/-! ### Claim C4 — search limit and ordering -/

/-- Claim C4: for every query and every limit `N ≥ 1`, search returns at
most `N` nodes, ordered by `priority_score` descending with ties broken by
`last_accessed_at` descending; in particular this holds for the empty
query. -/
theorem C4_search_limit_and_order (db : DB) (query : String) (N : Nat) (hN : 1 ≤ N) :
    (MemoryDatabase.search_memories db query N).length ≤ N ∧
    (MemoryDatabase.search_memories db query N).Pairwise MemoryDatabase.searchOrder :=
  ⟨List.length_take_le N _,
   List.Pairwise.sublist (List.take_sublist _ _)
     (List.sorted_insertionSort MemoryDatabase.searchOrder
       (db.filter (MemoryDatabase.rowMatches query)))⟩

/-- A concrete node used by witnesses and counterexamples. -/
def sampleNode (id content : String) (ctx : Ctx) (t : Nat) : MemoryNode :=
  { id := id, content := content, context := ctx, created_at := t,
    last_accessed_at := t, access_count := 0, priority_score := 1, node_type := "normal" }

/-- Witness for C4 at a concrete input. -/
theorem C4_search_witness :
    (MemoryDatabase.search_memories
        [sampleNode "a" "first" [] 1, sampleNode "b" "second" [] 9] "" 1).length ≤ 1 ∧
    (MemoryDatabase.search_memories
        [sampleNode "a" "first" [] 1, sampleNode "b" "second" [] 9] "" 1).Pairwise
      MemoryDatabase.searchOrder :=
  C4_search_limit_and_order
    [sampleNode "a" "first" [] 1, sampleNode "b" "second" [] 9] "" 1 (by decide)

/-! ### Claim C5 — search matching semantics

The claim asserts case-sensitive substring matching. The source issues
`content LIKE '%q%' OR context LIKE '%q%'`, and SQLite's default `LIKE` is
ASCII-case-insensitive (and `%`/`_` inside the query act as wildcards), so
the claim fails: a node whose content is `"Alice here"` is returned for
the query `"alice"`. -/

/-- Modelled from the spec's words, for comparison with the code's filter:
case-sensitive substring check (`startsWithCS` at each successive text
position). -/
def startsWithCS : List Char → List Char → Bool
  | [], _ => true
  | _ :: _, [] => false
  | c :: q, d :: s => c == d && startsWithCS q s

/-- Modelled from the spec's words: case-sensitive containment. -/
def containsCS : List Char → List Char → Bool
  | q, [] => q.isEmpty
  | q, d :: s => startsWithCS q (d :: s) || containsCS q s

/-- Modelled from the spec's words: `q` occurs in `s` as a case-sensitive
substring. -/
def csContains (q s : String) : Bool := containsCS q.data s.data

/-- Counterexample to claim C5 as stated: the node with content
`"Alice here"` is included in the results of `search("alice", 10)`
although `"alice"` is not a case-sensitive substring of its content or of
its serialized context. -/
theorem C5_counterexample :
    sampleNode "a1" "Alice here" [] 1 ∈
      MemoryDatabase.search_memories [sampleNode "a1" "Alice here" [] 1] "alice" 10 ∧
    csContains "alice" (sampleNode "a1" "Alice here" [] 1).content = false ∧
    csContains "alice" (ctxDumps (sampleNode "a1" "Alice here" [] 1).context) = false :=
  ⟨by decide, by decide, by decide⟩

/-- Claim C5 (amended): a stored node is included in the results of
`search(q, limit)` if and only if its content or its serialized context
satisfies the SQLite `LIKE '%q%'` condition (ASCII-case-insensitive, with
`%` and `_` in the query acting as wildcards), provided the matching nodes
fit within the limit; the empty query matches every node. -/
theorem C5_search_membership (db : DB) (q : String) (N : Nat)
    (hfit : (db.filter (MemoryDatabase.rowMatches q)).length ≤ N) :
    (∀ n : MemoryNode, n ∈ MemoryDatabase.search_memories db q N ↔
        (n ∈ db ∧ (sqlLikeContains q n.content || sqlLikeContains q (ctxDumps n.context)) = true)) ∧
    (∀ n : MemoryNode, (sqlLikeContains "" n.content || sqlLikeContains "" (ctxDumps n.context)) = true) := by
  constructor
  · intro n
    unfold MemoryDatabase.search_memories
    rw [List.take_of_length_le (by rw [List.length_insertionSort]; exact hfit),
      List.mem_insertionSort, List.mem_filter]
    simp [MemoryDatabase.rowMatches]
  · intro n
    simp [sqlLikeContains_empty]

/-! ### Claim C3 — access tracking invariants

The foreground operations are modelled as a step relation over the node
table, each step taking the wall-clock time at which the operation runs;
traces with nondecreasing times model the monotone wall clock. -/

/-- A foreground operation of `MemoryCore` (the argument of a step). -/
inductive Op where
  | storeOp (content : String) (context : Ctx) (id : String)
  | recallOp (id : String)
  | searchOp (q : String) (limit : Nat)

/-- One foreground operation applied to the node table at time `now`
(a failed insert leaves the table unchanged; search never writes). -/
def step (db : DB) : Op → Nat → DB
  | .storeOp c ctx id, now =>
      match MemoryCore.store_memory db c ctx id now with
      | .ok (db', _) => db'
      | .error _ => db
  | .recallOp id, now => (MemoryCore.recall_memory db id now).1
  | .searchOp _ _, _ => db

/-- Run a timed trace of operations from the empty table. -/
def run (ops : List (Nat × Op)) : DB :=
  ops.foldl (fun d p => step d p.2 p.1) []

/-- Every node's `last_accessed_at` is at least its `created_at`. -/
def GoodDB (db : DB) : Prop := ∀ n ∈ db, n.created_at ≤ n.last_accessed_at

/-- Every timestamp in the table is at most `t`. -/
def ClockLe (db : DB) (t : Nat) : Prop :=
  ∀ n ∈ db, n.created_at ≤ t ∧ n.last_accessed_at ≤ t

theorem findNode_map_preserve (f : MemoryNode → MemoryNode)
    (hf : ∀ n, (f n).id = n.id) (db : DB) (id : String) :
    findNode (db.map f) id = (findNode db id).map f := by
  induction db with
  | nil => rfl
  | cons m db ih =>
    unfold findNode at *
    simp only [List.map_cons, List.find?_cons]
    rw [hf m]
    by_cases h : m.id == id
    · rw [h]; rfl
    · simp only [Bool.not_eq_true] at h
      rw [h, ih]

theorem findNode_id {db : DB} {id : String} {n : MemoryNode}
    (h : findNode db id = some n) : n.id = id := by
  have := List.find?_some h
  simpa using this

theorem get_memory_miss {db : DB} {id : String} {now : Nat}
    (h : findNode db id = none) :
    MemoryDatabase.get_memory db id now = (db, none) := by
  unfold MemoryDatabase.get_memory
  rw [h]

theorem get_memory_hit {db : DB} {id : String} {now : Nat} {n : MemoryNode}
    (h : findNode db id = some n) :
    MemoryDatabase.get_memory db id now =
      (db.map (fun m => if m.id == id then
          { m with last_accessed_at := now, access_count := m.access_count + 1 }
        else m),
       some { n with last_accessed_at := now, access_count := n.access_count + 1 }) := by
  unfold MemoryDatabase.get_memory
  rw [h]

theorem step_store_dup {db : DB} {c : String} {ctx : Ctx} {sid : String} {now : Nat}
    (hdup : db.any (fun m => m.id == (MemoryCore.newNode c ctx sid now).id) = true) :
    step db (Op.storeOp c ctx sid) now = db := by
  simp only [step, MemoryCore.store_memory, MemoryDatabase.store_memory]
  rw [if_pos hdup]

theorem step_store_fresh {db : DB} {c : String} {ctx : Ctx} {sid : String} {now : Nat}
    (hfresh : ∀ m ∈ db, m.id ≠ (MemoryCore.newNode c ctx sid now).id) :
    step db (Op.storeOp c ctx sid) now = db ++ [MemoryCore.newNode c ctx sid now] := by
  simp only [step, MemoryCore.store_memory]
  rw [store_ok_of_fresh hfresh]

theorem step_recall_miss {db : DB} {rid : String} {now : Nat}
    (h : findNode db rid = none) :
    step db (Op.recallOp rid) now = db := by
  simp only [step, MemoryCore.recall_memory]
  rw [get_memory_miss h]

theorem step_recall_hit {db : DB} {rid : String} {now : Nat} {m : MemoryNode}
    (h : findNode db rid = some m) :
    step db (Op.recallOp rid) now =
      db.map (fun x => if x.id == rid then
        { x with last_accessed_at := now, access_count := x.access_count + 1 } else x) := by
  simp only [step, MemoryCore.recall_memory]
  rw [get_memory_hit h]

/-- No operation ever decreases any node's access count. -/
theorem step_access_mono (db : DB) (op : Op) (now : Nat) (id : String) (n : MemoryNode)
    (h : findNode db id = some n) :
    ∃ n', findNode (step db op now) id = some n' ∧ n.access_count ≤ n'.access_count := by
  cases op with
  | searchOp q limit => exact ⟨n, h, le_refl _⟩
  | storeOp c ctx sid =>
    by_cases hdup : db.any (fun m => m.id == (MemoryCore.newNode c ctx sid now).id)
    · rw [step_store_dup hdup]
      exact ⟨n, h, le_refl _⟩
    · have hfresh : ∀ m ∈ db, m.id ≠ (MemoryCore.newNode c ctx sid now).id := by
        simp only [Bool.not_eq_true, List.any_eq_false] at hdup
        intro m hm
        simpa using hdup m hm
      rw [step_store_fresh hfresh]
      refine ⟨n, ?_, le_refl _⟩
      unfold findNode at h ⊢
      rw [List.find?_append, h]
      rfl
  | recallOp rid =>
    cases hr : findNode db rid with
    | none => rw [step_recall_miss hr]; exact ⟨n, h, le_refl _⟩
    | some m =>
      rw [step_recall_hit hr]
      have hmap := findNode_map_preserve
        (fun m => if m.id == rid then
          { m with last_accessed_at := now, access_count := m.access_count + 1 } else m)
        (by intro x; by_cases hx : x.id == rid <;> simp [hx]) db id
      rw [hmap, h]
      by_cases hid : n.id = rid
      · refine ⟨{ n with last_accessed_at := now, access_count := n.access_count + 1 }, ?_, ?_⟩
        · simp [hid]
        · simp
      · refine ⟨n, ?_, le_refl _⟩
        simp [beq_iff_eq, hid]

/-- A step taken at time `now ≤ t` keeps all timestamps bounded by `t`. -/
theorem step_clock {db : DB} {t : Nat} (op : Op) (now : Nat)
    (hdb : ClockLe db t) (hnow : now ≤ t) : ClockLe (step db op now) t := by
  cases op with
  | searchOp q limit => exact hdb
  | storeOp c ctx sid =>
    by_cases hdup : db.any (fun m => m.id == (MemoryCore.newNode c ctx sid now).id)
    · rw [step_store_dup hdup]; exact hdb
    · have hfresh : ∀ m ∈ db, m.id ≠ (MemoryCore.newNode c ctx sid now).id := by
        simp only [Bool.not_eq_true, List.any_eq_false] at hdup
        intro m hm; simpa using hdup m hm
      rw [step_store_fresh hfresh]
      intro n hn
      rcases List.mem_append.mp hn with hn | hn
      · exact hdb n hn
      · simp only [List.mem_singleton] at hn
        subst hn
        exact ⟨hnow, hnow⟩
  | recallOp rid =>
    cases hr : findNode db rid with
    | none => rw [step_recall_miss hr]; exact hdb
    | some m =>
      rw [step_recall_hit hr]
      intro n hn
      rcases List.mem_map.mp hn with ⟨x, hx, hfx⟩
      subst hfx
      by_cases hid : x.id == rid
      · simp only [hid, if_true]
        exact ⟨(hdb x hx).1, hnow⟩
      · simp only [Bool.not_eq_true] at hid
        simp only [hid, Bool.false_eq_true, if_false]
        exact hdb x hx

/-- A step taken at a time no earlier than every stored timestamp
preserves `last_accessed_at ≥ created_at`. -/
theorem step_good {db : DB} {now : Nat} (op : Op)
    (hg : GoodDB db) (hc : ClockLe db now) : GoodDB (step db op now) := by
  cases op with
  | searchOp q limit => exact hg
  | storeOp c ctx sid =>
    by_cases hdup : db.any (fun m => m.id == (MemoryCore.newNode c ctx sid now).id)
    · rw [step_store_dup hdup]; exact hg
    · have hfresh : ∀ m ∈ db, m.id ≠ (MemoryCore.newNode c ctx sid now).id := by
        simp only [Bool.not_eq_true, List.any_eq_false] at hdup
        intro m hm; simpa using hdup m hm
      rw [step_store_fresh hfresh]
      intro n hn
      rcases List.mem_append.mp hn with hn | hn
      · exact hg n hn
      · simp only [List.mem_singleton] at hn
        subst hn
        exact le_refl _
  | recallOp rid =>
    cases hr : findNode db rid with
    | none => rw [step_recall_miss hr]; exact hg
    | some m =>
      rw [step_recall_hit hr]
      intro n hn
      rcases List.mem_map.mp hn with ⟨x, hx, hfx⟩
      subst hfx
      by_cases hid : x.id == rid
      · simp only [hid, if_true]
        exact (hc x hx).1
      · simp only [Bool.not_eq_true] at hid
        simp only [hid, Bool.false_eq_true, if_false]
        exact hg x hx

/-- Invariant preservation along a timed trace with nondecreasing times. -/
theorem run_foldl_inv : ∀ (ops : List (Nat × Op)) (db : DB),
    GoodDB db → (∀ p ∈ ops, ClockLe db p.1) →
    ops.Pairwise (fun p q => p.1 ≤ q.1) →
    GoodDB (ops.foldl (fun d p => step d p.2 p.1) db) ∧
    (∀ t, (∀ p ∈ ops, p.1 ≤ t) → ClockLe db t →
      ClockLe (ops.foldl (fun d p => step d p.2 p.1) db) t) := by
  intro ops
  induction ops with
  | nil => exact fun db hg _ _ => ⟨hg, fun t _ hc => hc⟩
  | cons p rest ih =>
    intro db hg hle hsorted
    have hc0 : ClockLe db p.1 := hle p (List.mem_cons_self p rest)
    have hg' : GoodDB (step db p.2 p.1) := step_good p.2 hg hc0
    have hle' : ∀ q ∈ rest, ClockLe (step db p.2 p.1) q.1 := by
      intro q hq
      exact step_clock p.2 p.1 (hle q (List.mem_cons_of_mem p hq))
        ((List.pairwise_cons.mp hsorted).1 q hq)
    have hsorted' := (List.pairwise_cons.mp hsorted).2
    obtain ⟨h1, h2⟩ := ih (step db p.2 p.1) hg' hle' hsorted'
    refine ⟨by simpa using h1, ?_⟩
    intro t ht hct
    have hstep : ClockLe (step db p.2 p.1) t :=
      step_clock p.2 p.1 hct (ht p (List.mem_cons_self p rest))
    simpa using h2 t (fun q hq => ht q (List.mem_cons_of_mem p hq)) hstep

theorem recall_memory_hit {db : DB} {id : String} {now : Nat} {n : MemoryNode}
    (h : findNode db id = some n) :
    MemoryCore.recall_memory db id now =
      (db.map (fun x => if x.id == id then
          { x with last_accessed_at := now, access_count := x.access_count + 1 } else x),
       some { id := n.id, content := n.content, context := n.context,
              created_at := n.created_at, last_accessed_at := now,
              access_count := n.access_count + 1,
              priority_score := n.priority_score, node_type := n.node_type }) := by
  unfold MemoryCore.recall_memory
  rw [get_memory_hit h]

/-- Claim C3: along any timed trace from the empty table with
nondecreasing operation times, (a) every node satisfies
`last_accessed_at ≥ created_at`; (b) a successful recall at a time `now`
no earlier than every trace time increments the node's `access_count` by
exactly 1, sets `last_accessed_at` to `now` — a value at least its
previous value — and the result returned by recall already reflects the
incremented count; (c) no operation on any table ever decreases any
node's access count. -/
theorem C3_access_tracking (ops : List (Nat × Op))
    (hsorted : ops.Pairwise (fun p q => p.1 ≤ q.1)) :
    GoodDB (run ops) ∧
    (∀ now, (∀ p ∈ ops, p.1 ≤ now) →
      ∀ id n, findNode (run ops) id = some n →
        n.last_accessed_at ≤ now ∧
        (MemoryCore.recall_memory (run ops) id now).2 = some
          { id := n.id, content := n.content, context := n.context,
            created_at := n.created_at, last_accessed_at := now,
            access_count := n.access_count + 1, priority_score := n.priority_score,
            node_type := n.node_type } ∧
        findNode ((MemoryCore.recall_memory (run ops) id now).1) id =
          some { n with last_accessed_at := now, access_count := n.access_count + 1 }) ∧
    (∀ (db : DB) (op : Op) (now : Nat) (id : String) (n : MemoryNode),
      findNode db id = some n →
      ∃ n', findNode (step db op now) id = some n' ∧ n.access_count ≤ n'.access_count) := by
  have hinv := run_foldl_inv ops [] (by intro n hn; cases hn)
    (by intro p _ n hn; cases hn) hsorted
  refine ⟨hinv.1, ?_, step_access_mono⟩
  intro now hbound id n hfind
  have hclock : ClockLe (run ops) now :=
    hinv.2 now hbound (by intro n hn; cases hn)
  have hmem : n ∈ run ops := List.mem_of_find?_eq_some hfind
  have hlast : n.last_accessed_at ≤ now := (hclock n hmem).2
  refine ⟨hlast, ?_, ?_⟩
  · rw [recall_memory_hit hfind]
  · rw [recall_memory_hit hfind]
    have hmap := findNode_map_preserve
      (fun x => if x.id == id then
        { x with last_accessed_at := now, access_count := x.access_count + 1 } else x)
      (by intro x; by_cases hx : x.id == id <;> simp [hx]) (run ops) id
    simp only [] at hmap ⊢
    rw [hmap, hfind]
    have hid : n.id = id := findNode_id hfind
    simp [hid]

/-- A concrete timed trace: one store at time 0, one recall at time 2. -/
def c3ops : List (Nat × Op) :=
  [(0, Op.storeOp "hello" [] "idA"), (2, Op.recallOp "idA")]

/-- The node produced by running `c3ops` (recalled once already). -/
def c3node : MemoryNode :=
  { id := "idA", content := "hello", context := [], created_at := 0,
    last_accessed_at := 2, access_count := 1, priority_score := 1, node_type := "normal" }

/-- Witness for C3 at a concrete trace and recall time. -/
theorem C3_tracking_witness :
    c3node.last_accessed_at ≤ 5 ∧
    (MemoryCore.recall_memory (run c3ops) "idA" 5).2 = some
      { id := c3node.id, content := c3node.content, context := c3node.context,
        created_at := c3node.created_at, last_accessed_at := 5,
        access_count := c3node.access_count + 1, priority_score := c3node.priority_score,
        node_type := c3node.node_type } ∧
    findNode ((MemoryCore.recall_memory (run c3ops) "idA" 5).1) "idA" =
      some { c3node with last_accessed_at := 5, access_count := c3node.access_count + 1 } :=
  (C3_access_tracking c3ops (by decide)).2.1 5 (by decide) "idA" c3node (by decide)

/-- Witness for the amended C5 at a concrete input. -/
theorem C5_membership_witness :
    (sampleNode "a1" "Alice here" [] 1 ∈
        MemoryDatabase.search_memories [sampleNode "a1" "Alice here" [] 1] "alice" 10 ↔
      (sampleNode "a1" "Alice here" [] 1 ∈ [sampleNode "a1" "Alice here" [] 1] ∧
        (sqlLikeContains "alice" (sampleNode "a1" "Alice here" [] 1).content ||
          sqlLikeContains "alice" (ctxDumps (sampleNode "a1" "Alice here" [] 1).context)) = true)) :=
  (C5_search_membership [sampleNode "a1" "Alice here" [] 1] "alice" 10 (by decide)).1
    (sampleNode "a1" "Alice here" [] 1)

/-! ### DreamerAI — relationship scoring and classification

Embedding of `DreamerAI._analyze_relationship` and
`DreamerAI._classify_relationship`. Their inputs are the formatted result
dictionaries produced by `query_memories` (`QueryResult`). Floating-point
scores are modelled as rationals, and `datetime.fromisoformat` of a
`created_at` rendered by `isoformat` always succeeds, so the `try` around
the temporal bonus is modelled as the success path. Python's `.lower()`
and no-argument `.split()` become ASCII lowercasing and splitting on
whitespace runs with empty pieces dropped. -/

namespace DreamerAI

/-- The keys present in both context dictionaries
(`set(context1.keys()) & set(context2.keys())`), listed without
duplicates. -/
def commonKeys (c1 c2 : Ctx) : List String :=
  ((c1.map Prod.fst).dedup).filter (fun k => (c2.map Prod.fst).contains k)

/-- Context-overlap contribution: 0.2 for each common key whose values
are equal (`score += 0.2`). -/
def contextScore (c1 c2 : Ctx) : Rat :=
  (((commonKeys c1 c2).filter (fun k => ctxGet c1 k == ctxGet c2 k)).length : Rat) * (1 / 5)

/-- `memory["content"].lower().split()`: lowercase, split on whitespace
runs, drop empty pieces. -/
def words (content : String) : List String :=
  (content.toLower.split Char.isWhitespace).filter (fun w => w ≠ "")

/-- The set of words of a content string (`set(...)`), as a
duplicate-free list. -/
def wordSet (content : String) : List String := (words content).dedup

/-- Content-similarity contribution: Jaccard similarity of the word sets
times 0.5, guarded by both word sets being non-empty (the inner
`if union else 0` is unreachable under that guard). -/
def jaccardAdd (m1 m2 : QueryResult) : Rat :=
  if (wordSet m1.content).isEmpty || (wordSet m2.content).isEmpty then 0
  else
    (((wordSet m1.content).filter (fun w => (wordSet m2.content).contains w)).length : Rat) /
      ((((wordSet m1.content) ++ (wordSet m2.content)).dedup).length : Rat) * (1 / 2)

/-- Temporal-proximity contribution: 0.1 when the creation times are less
than 24 hours (86400 seconds) apart. -/
def temporalAdd (m1 m2 : QueryResult) : Rat :=
  if max m1.created_at m2.created_at - min m1.created_at m2.created_at < 86400 then 1 / 10 else 0

/-- Embedding of `DreamerAI._analyze_relationship`: the summed score
clamped by `min(score, 1.0)`. -/
def analyzeRelationship (m1 m2 : QueryResult) : Rat :=
  min (contextScore m1.context m2.context + jaccardAdd m1 m2 + temporalAdd m1 m2) 1

/-- Embedding of `DreamerAI._classify_relationship`: Python's
`context.get(key)` yields `None` for a missing key, and `None == None` is
true, so two missing (or equal) projects classify as `project_related`. -/
def classifyRelationship (m1 m2 : QueryResult) : String :=
  if ctxGet m1.context "project" == ctxGet m2.context "project" then "project_related"
  else if ctxGet m1.context "type" == ctxGet m2.context "type" then "type_similar"
  else "semantic"

/-! Summary creation (`_create_summaries` / `_create_project_summary`). -/

/-- Python truthiness, as tested by `if project:` during grouping. -/
def jvalTruthy : Jval → Bool
  | .str s => !(s == "")
  | .num n => !(n == 0)
  | .bool b => b
  | .null => false
  | .arr elems => !elems.isEmpty
  | .obj fields => !fields.isEmpty

mutual

/-- Python `str()` of a JSON-representable value, as interpolated by the
f-string `f"Summary of {project}"`: strings render bare, other values
render as their `repr`. -/
def pyStr : Jval → String
  | .str s => s
  | .num n => toString n
  | .bool b => if b then "True" else "False"
  | .null => "None"
  | .arr elems => "[" ++ pyReprList elems ++ "]"
  | .obj fields => "\x7b" ++ pyReprObj fields ++ "\x7d"

/-- Python `repr()` of a JSON-representable value (string quoting and
escaping beyond the quote itself is elided; no claim depends on it). -/
def pyRepr : Jval → String
  | .str s => "\x27" ++ s ++ "\x27"
  | .num n => toString n
  | .bool b => if b then "True" else "False"
  | .null => "None"
  | .arr elems => "[" ++ pyReprList elems ++ "]"
  | .obj fields => "\x7b" ++ pyReprObj fields ++ "\x7d"

/-- Comma-separated `repr`s of list elements. -/
def pyReprList : List Jval → String
  | [] => ""
  | [v] => pyRepr v
  | v :: rest => pyRepr v ++ ", " ++ pyReprList rest

/-- Comma-separated `repr`s of dict items. -/
def pyReprObj : List (String × Jval) → String
  | [] => ""
  | [kv] => "\x27" ++ kv.1 ++ "\x27: " ++ pyRepr kv.2
  | kv :: rest => "\x27" ++ kv.1 ++ "\x27: " ++ pyRepr kv.2 ++ ", " ++ pyReprObj rest

end

/-- The idempotence-check search string `f"Summary of {project}"`. -/
def summaryMarker (p : Jval) : String := "Summary of " ++ pyStr p

/-- `content[:50] + "..." if len(content) > 50 else content`. -/
def preview (content : String) : String :=
  if 50 < content.length then content.take 50 ++ "..." else content

/-- The `"- {preview}"` lines built from the last five members
(`memories[-5:]`). -/
def recentActivities (ms : List QueryResult) : List String :=
  (ms.drop (ms.length - 5)).map (fun m => "- " ++ preview m.content)

/-- The clock rendering `datetime.now(...).strftime("%Y-%m-%d %H:%M:%S UTC")`,
abstracted to the model's natural-number clock. -/
def fmtTime (t : Nat) : String := toString t ++ " UTC"

/-- The generated summary body of `_create_project_summary` (the f-string
with total count, recent-activity previews joined by `chr(10)`, and a
generation timestamp). -/
def summaryContent (p : Jval) (ms : List QueryResult) (now : Nat) : String :=
  summaryMarker p ++ ":\n\nTotal memories: " ++ toString ms.length ++
    "\nRecent activities:\n" ++ String.intercalate "\n" (recentActivities ms) ++
    "\n\nThis is an automatically generated summary created by the Dreamer AI.\nLast updated: " ++
    fmtTime now

/-- The context dictionary stored with a summary. -/
def summaryContext (p : Jval) (count : Nat) : Ctx :=
  [("type", Jval.str "summary"), ("project", p),
   ("source", Jval.str "dreamer_ai"), ("summarized_count", Jval.num count)]

/-- Embedding of `_create_project_summary`: search for an existing node
matching `f"Summary of {project}"` (default limit 10); if none exists,
build the summary and store it via `MemoryCore.store_memory`, drawing the
next id from `ids`. A store failure propagates (the source re-raises). -/
def createProjectSummary (db : DB) (ids : Nat → String) (idx : Nat) (now : Nat)
    (p : Jval) (ms : List QueryResult) : Except String (DB × Nat) :=
  if (MemoryCore.query_memories db (summaryMarker p) 10).isEmpty then
    match MemoryCore.store_memory db (summaryContent p ms now)
        (summaryContext p ms.length) (ids idx) now with
    | .ok (db', _) => .ok (db', idx + 1)
    | .error e => .error e
  else .ok (db, idx)

/-- One step of the grouping loop: append the memory to its project's
group, or open a new group at the end (Python dict insertion order). -/
def groupInsert (gs : List (Jval × List QueryResult)) (p : Jval) (m : QueryResult) :
    List (Jval × List QueryResult) :=
  if gs.any (fun g => g.1 == p) then
    gs.map (fun g => if g.1 == p then (g.1, g.2 ++ [m]) else g)
  else gs ++ [(p, [m])]

/-- The body of the grouping loop: skip memories without a truthy
`context.project`, otherwise insert into that project's group. -/
def groupStep (gs : List (Jval × List QueryResult)) (m : QueryResult) :
    List (Jval × List QueryResult) :=
  match ctxGet m.context "project" with
  | some v => if jvalTruthy v then groupInsert gs v m else gs
  | none => gs

/-- Grouping of `_create_summaries`: group the listed memories by their
truthy `context.project` value, in first-occurrence order. -/
def projectGroups (ms : List QueryResult) : List (Jval × List QueryResult) :=
  ms.foldl groupStep []

/-- Membership test of the grouping: `m` lands in the group of `p` iff its
`context.project` is exactly `p` and `p` is truthy. -/
def isProjMember (p : Jval) (m : QueryResult) : Bool :=
  (ctxGet m.context "project" == some p) && jvalTruthy p

/-- The project groups of `_create_summaries` that pass the
`len(memories) >= 3` test, computed from the empty-query listing. -/
def eligibleGroups (db : DB) : List (Jval × List QueryResult) :=
  (projectGroups (MemoryCore.query_memories db "" 100)).filter (fun g => 3 ≤ g.2.length)

/-- Embedding of `_create_summaries`: list up to 100 memories with the
empty query, group by project, and create one summary per group with at
least 3 members (each via `_create_project_summary` against the live
database). -/
def createSummaries (db : DB) (ids : Nat → String) (idx : Nat) (now : Nat) :
    Except String (DB × Nat) :=
  (eligibleGroups db).foldlM
    (fun acc g => createProjectSummary acc.1 ids acc.2 now g.1 g.2) (db, idx)

end DreamerAI

/-! ### Claim C6 — score symmetry and range -/

theorem length_eq_of_nodup_mem_iff {α : Type} {l1 l2 : List α}
    (h1 : l1.Nodup) (h2 : l2.Nodup) (h : ∀ a, a ∈ l1 ↔ a ∈ l2) :
    l1.length = l2.length :=
  ((List.perm_ext_iff_of_nodup h1 h2).mpr h).length_eq

theorem contextScore_comm (c1 c2 : Ctx) :
    DreamerAI.contextScore c1 c2 = DreamerAI.contextScore c2 c1 := by
  unfold DreamerAI.contextScore DreamerAI.commonKeys
  congr 1
  norm_cast
  apply length_eq_of_nodup_mem_iff
  · exact ((c1.map Prod.fst).nodup_dedup).filter _ |>.filter _
  · exact ((c2.map Prod.fst).nodup_dedup).filter _ |>.filter _
  · intro a
    simp only [List.mem_filter, List.mem_dedup, List.contains, List.elem_iff, beq_iff_eq]
    constructor
    · rintro ⟨⟨h1, h2⟩, h3⟩
      exact ⟨⟨h2, h1⟩, h3.symm⟩
    · rintro ⟨⟨h1, h2⟩, h3⟩
      exact ⟨⟨h2, h1⟩, h3.symm⟩

theorem jaccardAdd_comm (m1 m2 : QueryResult) :
    DreamerAI.jaccardAdd m1 m2 = DreamerAI.jaccardAdd m2 m1 := by
  unfold DreamerAI.jaccardAdd
  by_cases h : (DreamerAI.wordSet m1.content).isEmpty || (DreamerAI.wordSet m2.content).isEmpty
  · rw [if_pos h, if_pos (by rwa [Bool.or_comm] at h)]
  · rw [if_neg h, if_neg (by rwa [Bool.or_comm] at h)]
    have hinter : ((DreamerAI.wordSet m1.content).filter
        (fun w => (DreamerAI.wordSet m2.content).contains w)).length =
        ((DreamerAI.wordSet m2.content).filter
        (fun w => (DreamerAI.wordSet m1.content).contains w)).length := by
      apply length_eq_of_nodup_mem_iff
      · exact (DreamerAI.words m1.content).nodup_dedup.filter _
      · exact (DreamerAI.words m2.content).nodup_dedup.filter _
      · intro a
        simp only [List.mem_filter, List.contains, List.elem_iff]
        exact ⟨fun ⟨x, y⟩ => ⟨y, x⟩, fun ⟨x, y⟩ => ⟨y, x⟩⟩
    have hunion : (((DreamerAI.wordSet m1.content) ++ (DreamerAI.wordSet m2.content)).dedup).length =
        (((DreamerAI.wordSet m2.content) ++ (DreamerAI.wordSet m1.content)).dedup).length := by
      apply length_eq_of_nodup_mem_iff (List.nodup_dedup _) (List.nodup_dedup _)
      intro a
      simp only [List.mem_dedup, List.mem_append]
      exact Or.comm
    rw [hinter, hunion]

theorem temporalAdd_comm (m1 m2 : QueryResult) :
    DreamerAI.temporalAdd m1 m2 = DreamerAI.temporalAdd m2 m1 := by
  unfold DreamerAI.temporalAdd
  rw [Nat.max_comm, Nat.min_comm]

theorem contextScore_nonneg (c1 c2 : Ctx) : 0 ≤ DreamerAI.contextScore c1 c2 := by
  unfold DreamerAI.contextScore
  positivity

theorem jaccardAdd_nonneg (m1 m2 : QueryResult) : 0 ≤ DreamerAI.jaccardAdd m1 m2 := by
  unfold DreamerAI.jaccardAdd
  by_cases h : (DreamerAI.wordSet m1.content).isEmpty || (DreamerAI.wordSet m2.content).isEmpty
  · rw [if_pos h]
  · rw [if_neg h]
    positivity

theorem temporalAdd_nonneg (m1 m2 : QueryResult) : 0 ≤ DreamerAI.temporalAdd m1 m2 := by
  unfold DreamerAI.temporalAdd
  by_cases h : max m1.created_at m2.created_at - min m1.created_at m2.created_at < 86400
  · rw [if_pos h]; norm_num
  · rw [if_neg h]

/-- Claim C6: for every pair of nodes, the relationship score is
symmetric under swapping the inputs and lies in the interval `[0, 1]`. -/
theorem C6_score_symmetric_bounded (m1 m2 : QueryResult) :
    DreamerAI.analyzeRelationship m1 m2 = DreamerAI.analyzeRelationship m2 m1 ∧
    0 ≤ DreamerAI.analyzeRelationship m1 m2 ∧
    DreamerAI.analyzeRelationship m1 m2 ≤ 1 := by
  refine ⟨?_, ?_, ?_⟩
  · unfold DreamerAI.analyzeRelationship
    rw [contextScore_comm, jaccardAdd_comm, temporalAdd_comm]
  · unfold DreamerAI.analyzeRelationship
    apply le_min
    · have h1 := contextScore_nonneg m1.context m2.context
      have h2 := jaccardAdd_nonneg m1 m2
      have h3 := temporalAdd_nonneg m1 m2
      linarith
    · norm_num
  · exact min_le_right _ _

/-! ### Claim C7 — relationship classification

The claim requires both `context.project` values to be *present* (and
equal) for `project_related`. The code compares `context.get("project")`
values, and Python's `None == None` is true: two nodes both lacking a
project classify as `project_related`, not `semantic`. -/

/-- A query-result dictionary with an empty context. -/
def emptyQR (id content : String) : QueryResult :=
  { id := id, content := content, context := [], created_at := 0,
    priority_score := 1, node_type := "normal" }

/-- Counterexample to claim C7 as stated: two nodes with no
`context.project` at all are classified `project_related` (the claim
requires `semantic` when the keys are absent). -/
theorem C7_counterexample :
    DreamerAI.classifyRelationship (emptyQR "a" "x") (emptyQR "b" "y") = "project_related" ∧
    ctxGet (emptyQR "a" "x").context "project" = none ∧
    ctxGet (emptyQR "b" "y").context "project" = none :=
  ⟨rfl, rfl, rfl⟩

/-- Claim C7 (amended): the category is `project_related` iff the two
`context.project` values — with a missing key reading as `None` — are
equal; otherwise `type_similar` iff the two `context.type` values (missing
read as `None`) are equal; otherwise `semantic`. -/
theorem C7_classification (m1 m2 : QueryResult) :
    (DreamerAI.classifyRelationship m1 m2 = "project_related" ↔
      ctxGet m1.context "project" = ctxGet m2.context "project") ∧
    (DreamerAI.classifyRelationship m1 m2 = "type_similar" ↔
      (ctxGet m1.context "project" ≠ ctxGet m2.context "project" ∧
       ctxGet m1.context "type" = ctxGet m2.context "type")) ∧
    (DreamerAI.classifyRelationship m1 m2 = "semantic" ↔
      (ctxGet m1.context "project" ≠ ctxGet m2.context "project" ∧
       ctxGet m1.context "type" ≠ ctxGet m2.context "type")) := by
  unfold DreamerAI.classifyRelationship
  by_cases hp : ctxGet m1.context "project" = ctxGet m2.context "project"
  · simp [hp]
  · by_cases ht : ctxGet m1.context "type" = ctxGet m2.context "type"
    · simp [beq_iff_eq, hp, ht]
    · simp [beq_iff_eq, hp, ht]

/-! ### SummaryBuilder lemmas (claims C8 and C9)

`_create_summaries` lists up to 100 nodes, groups them by truthy
`context.project`, and creates one summary per group of at least three
members, guarded by a live substring search for `f"Summary of {project}"`. -/

theorem rowMatches_empty (n : MemoryNode) : MemoryDatabase.rowMatches "" n = true := by
  unfold MemoryDatabase.rowMatches
  rw [sqlLikeContains_empty, Bool.true_or]

theorem filter_empty_query (db : DB) : db.filter (MemoryDatabase.rowMatches "") = db :=
  List.filter_eq_self.mpr (fun n _ => rowMatches_empty n)

/-- When the table fits in the listing limit, the empty-query listing is a
permutation of the formatted table. -/
theorem listing_perm (db : DB) (h : db.length ≤ 100) :
    (MemoryCore.query_memories db "" 100).Perm (db.map MemoryCore.toQR) := by
  unfold MemoryCore.query_memories MemoryDatabase.search_memories
  rw [filter_empty_query,
    List.take_of_length_le (by rw [List.length_insertionSort]; exact h)]
  exact (List.perm_insertionSort _ _).map MemoryCore.toQR

/-- A positive-limit query returns nothing iff no row matches. -/
theorem query_empty_iff (db : DB) (q : String) (limit : Nat) (hl : 0 < limit) :
    MemoryCore.query_memories db q limit = [] ↔
      ∀ n ∈ db, MemoryDatabase.rowMatches q n = false := by
  unfold MemoryCore.query_memories MemoryDatabase.search_memories
  rw [List.map_eq_nil_iff, List.take_eq_nil_iff]
  constructor
  · intro hcase n hn
    rcases hcase with hcase | hcase
    · omega
    · have hperm := List.perm_insertionSort MemoryDatabase.searchOrder
        (db.filter (MemoryDatabase.rowMatches q))
      rw [hcase] at hperm
      have hfil : db.filter (MemoryDatabase.rowMatches q) = [] := hperm.symm.eq_nil
      by_contra hmatch
      simp only [Bool.not_eq_false] at hmatch
      have hmem : n ∈ db.filter (MemoryDatabase.rowMatches q) := List.mem_filter.mpr ⟨hn, hmatch⟩
      rw [hfil] at hmem
      cases hmem
  · intro hall
    right
    have hfil : db.filter (MemoryDatabase.rowMatches q) = [] := by
      apply List.filter_eq_nil_iff.mpr
      intro n hn
      rw [hall n hn]
      simp
    rw [hfil]
    rfl

/-- The node `_create_project_summary` stores for a group, drawing id
number `idx`. -/
def summNode (ids : Nat → String) (now idx : Nat) (g : Jval × List QueryResult) : MemoryNode :=
  MemoryCore.newNode (DreamerAI.summaryContent g.1 g.2 now)
    (DreamerAI.summaryContext g.1 g.2.length) (ids idx) now

/-- The summary nodes a run creates for a list of groups, with
consecutive id numbers from `i`. -/
def mkSummaries (ids : Nat → String) (now : Nat) : Nat → List (Jval × List QueryResult) → DB
  | _, [] => []
  | i, g :: gs => summNode ids now i g :: mkSummaries ids now (i + 1) gs

theorem createProjectSummary_skip {db : DB} {ids : Nat → String} {idx now : Nat}
    {p : Jval} {ms : List QueryResult}
    (h : MemoryCore.query_memories db (DreamerAI.summaryMarker p) 10 ≠ []) :
    DreamerAI.createProjectSummary db ids idx now p ms = .ok (db, idx) := by
  unfold DreamerAI.createProjectSummary
  rw [if_neg (by simpa [List.isEmpty_iff] using h)]

theorem createProjectSummary_create {db : DB} {ids : Nat → String} {idx now : Nat}
    {p : Jval} {ms : List QueryResult}
    (h : MemoryCore.query_memories db (DreamerAI.summaryMarker p) 10 = [])
    (hfresh : ∀ n ∈ db, n.id ≠ ids idx) :
    DreamerAI.createProjectSummary db ids idx now p ms =
      .ok (db ++ [summNode ids now idx (p, ms)], idx + 1) := by
  unfold DreamerAI.createProjectSummary
  rw [if_pos (by simpa [List.isEmpty_iff] using h)]
  have hok := store_ok_of_fresh (m := summNode ids now idx (p, ms)) (by
    intro n hn
    simpa [summNode, MemoryCore.newNode] using hfresh n hn)
  unfold MemoryCore.store_memory
  rw [show MemoryCore.newNode (DreamerAI.summaryContent p ms now)
      (DreamerAI.summaryContext p ms.length) (ids idx) now = summNode ids now idx (p, ms) from rfl,
    hok]

theorem startsWithCS_self_append (q rest : List Char) :
    startsWithCS q (q ++ rest) = true := by
  induction q with
  | nil => rfl
  | cons c q ih => simp [startsWithCS, ih]

theorem startsWithCS_exists {q s : List Char} (h : startsWithCS q s = true) :
    ∃ rest, s = q ++ rest := by
  induction q generalizing s with
  | nil => exact ⟨s, rfl⟩
  | cons c q ih =>
    cases s with
    | nil => simp [startsWithCS] at h
    | cons d s =>
      simp only [startsWithCS, Bool.and_eq_true, beq_iff_eq] at h
      obtain ⟨rfl, h2⟩ := h
      obtain ⟨rest, rfl⟩ := ih h2
      exact ⟨rest, rfl⟩

/-- A row whose content begins with the query matches the `LIKE` filter. -/
theorem rowMatches_of_startsWith {q : String} {n : MemoryNode}
    (h : startsWithCS q.data n.content.data = true) :
    MemoryDatabase.rowMatches q n = true := by
  obtain ⟨rest, hrest⟩ := startsWithCS_exists h
  unfold MemoryDatabase.rowMatches
  rw [sqlLikeContains_substring q n.content [] rest (by simpa using hrest), Bool.true_or]

/-- Every generated summary's content begins with its own marker. -/
theorem startsWith_summNode (ids : Nat → String) (now idx : Nat)
    (g : Jval × List QueryResult) :
    startsWithCS (DreamerAI.summaryMarker g.1).data (summNode ids now idx g).content.data = true := by
  have hc : (summNode ids now idx g).content =
      DreamerAI.summaryMarker g.1 ++ (":\n\nTotal memories: " ++ toString g.2.length ++
        "\nRecent activities:\n" ++ String.intercalate "\n" (DreamerAI.recentActivities g.2) ++
        "\n\nThis is an automatically generated summary created by the Dreamer AI.\nLast updated: " ++
        DreamerAI.fmtTime now) := by
    simp [summNode, MemoryCore.newNode, DreamerAI.summaryContent, String.append_assoc]
  rw [hc]
  rw [show (DreamerAI.summaryMarker g.1 ++ (":\n\nTotal memories: " ++ toString g.2.length ++
        "\nRecent activities:\n" ++ String.intercalate "\n" (DreamerAI.recentActivities g.2) ++
        "\n\nThis is an automatically generated summary created by the Dreamer AI.\nLast updated: " ++
        DreamerAI.fmtTime now)).data = (DreamerAI.summaryMarker g.1).data ++ (":\n\nTotal memories: " ++ toString g.2.length ++
        "\nRecent activities:\n" ++ String.intercalate "\n" (DreamerAI.recentActivities g.2) ++
        "\n\nThis is an automatically generated summary created by the Dreamer AI.\nLast updated: " ++
        DreamerAI.fmtTime now).data from by simp [String.data_append]]
  exact startsWithCS_self_append _ _

theorem isProjMember_none {p : Jval} {m : QueryResult}
    (h : ctxGet m.context "project" = none) : DreamerAI.isProjMember p m = false := by
  simp [DreamerAI.isProjMember, h]

theorem isProjMember_untruthy {p v : Jval} {m : QueryResult}
    (hv : ctxGet m.context "project" = some v) (huv : DreamerAI.jvalTruthy v = false)
    (hp : DreamerAI.jvalTruthy p = true) : DreamerAI.isProjMember p m = false := by
  by_cases hvp : v = p
  · subst hvp; rw [huv] at hp; cases hp
  · simp [DreamerAI.isProjMember, hv, hvp]

theorem isProjMember_ne {p v : Jval} {m : QueryResult}
    (hv : ctxGet m.context "project" = some v) (hne : v ≠ p) :
    DreamerAI.isProjMember p m = false := by
  simp [DreamerAI.isProjMember, hv, hne]

theorem isProjMember_self {v : Jval} {m : QueryResult}
    (hv : ctxGet m.context "project" = some v) (htv : DreamerAI.jvalTruthy v = true) :
    DreamerAI.isProjMember v m = true := by
  simp [DreamerAI.isProjMember, hv, htv]

/-! ### Claim C10 — scheduler fault isolation

Embedding of the `while self.running` loop of `DreamerAI.start` as a step
relation consuming, per iteration, the running flag observed by the
`while` test and the outcome of the cycle body (success, an exception, or
a cancellation delivered during the body or a sleep). On success the loop
sleeps `interval`; on an exception it logs the message and sleeps the
fixed 60-second backoff; on cancellation it breaks. A cancellation
delivered during the backoff sleep propagates out of the handler and also
ends the loop, which the model folds into a `cancelled` outcome at the
next iteration. -/

/-- Outcome of one cycle body, as observed by the loop's `try`. -/
inductive CycleResult where
  | ok
  | err (msg : String)
  | cancelled
  deriving Repr, DecidableEq

/-- What the loop does after one iteration. -/
inductive IterAction where
  | sleepThenContinue (delay : Nat)
  | exitCancelled
  | exitStopped
  deriving Repr, DecidableEq

/-- Why a loop terminated. -/
inductive ExitReason where
  | cancelled
  | stopped
  deriving Repr, DecidableEq

/-- One iteration of `DreamerAI.start`'s loop: `while self.running` test,
then the cycle body; exceptions are logged and answered with the fixed
60-unit backoff, cancellation breaks. Returns the action and the logged
error messages. -/
def loopIter (running : Bool) (interval : Nat) (r : CycleResult) : IterAction × List String :=
  if !running then (.exitStopped, [])
  else
    match r with
    | .ok => (.sleepThenContinue interval, [])
    | .err m => (.sleepThenContinue 60, [m])
    | .cancelled => (.exitCancelled, [])

/-- Run the loop over a finite trace of per-iteration observations.
Returns the sleeps performed, the errors logged, and the exit reason
(`none`: the trace was exhausted with the loop still running). -/
def loopRun (interval : Nat) : List (Bool × CycleResult) → List Nat × List String × Option ExitReason
  | [] => ([], [], none)
  | (running, r) :: rest =>
      match loopIter running interval r with
      | (.exitStopped, logs) => ([], logs, some .stopped)
      | (.exitCancelled, logs) => ([], logs, some .cancelled)
      | (.sleepThenContinue d, logs) =>
          (d :: (loopRun interval rest).1,
           logs ++ (loopRun interval rest).2.1,
           (loopRun interval rest).2.2)

/-- Claim C10: a cycle that raises an error never terminates the loop —
the error is logged and answered with the fixed 60-unit backoff; the loop
terminates only when an iteration observes a stop signal (cleared running
flag) or a cancellation; and on a trace free of both, every cycle of the
trace runs (one sleep per iteration), with every error logged. -/
theorem C10_fault_isolation (interval : Nat) :
    (∀ m, loopIter true interval (.err m) = (.sleepThenContinue 60, [m])) ∧
    (∀ (trace : List (Bool × CycleResult)) (reason : ExitReason),
      (loopRun interval trace).2.2 = some reason →
      ∃ ev ∈ trace, ev.1 = false ∨ ev.2 = CycleResult.cancelled) ∧
    (∀ trace : List (Bool × CycleResult),
      (∀ ev ∈ trace, ev.1 = true ∧ ev.2 ≠ CycleResult.cancelled) →
      (loopRun interval trace).2.2 = none ∧
      (loopRun interval trace).1.length = trace.length ∧
      (loopRun interval trace).2.1 = trace.filterMap (fun ev =>
        match ev.2 with | CycleResult.err m => some m | _ => none)) := by
  refine ⟨fun m => rfl, ?_, ?_⟩
  · intro trace
    induction trace with
    | nil => intro r h; cases h
    | cons ev rest ih =>
      intro r h
      obtain ⟨running, res⟩ := ev
      cases running with
      | false =>
        exact ⟨(false, res), List.mem_cons_self _ _, Or.inl rfl⟩
      | true =>
        cases res with
        | ok =>
          simp only [loopRun, loopIter] at h
          obtain ⟨ev', hev', hor⟩ := ih r h
          exact ⟨ev', List.mem_cons_of_mem _ hev', hor⟩
        | err m =>
          simp only [loopRun, loopIter] at h
          obtain ⟨ev', hev', hor⟩ := ih r h
          exact ⟨ev', List.mem_cons_of_mem _ hev', hor⟩
        | cancelled =>
          exact ⟨(true, .cancelled), List.mem_cons_self _ _, Or.inr rfl⟩
  · intro trace
    induction trace with
    | nil => intro _; exact ⟨rfl, rfl, rfl⟩
    | cons ev rest ih =>
      intro hall
      obtain ⟨running, res⟩ := ev
      have h1 := hall (running, res) (List.mem_cons_self _ _)
      have hrest := fun ev hev => hall ev (List.mem_cons_of_mem _ hev)
      obtain ⟨hrun, hnc⟩ := h1
      subst hrun
      obtain ⟨ha, hb, hc⟩ := ih hrest
      cases res with
      | ok =>
        simp only [loopRun, loopIter, List.filterMap_cons]
        exact ⟨ha, by simp [hb], by simp [hc]⟩
      | err m =>
        simp only [loopRun, loopIter, List.filterMap_cons]
        exact ⟨ha, by simp [hb], by simp [hc]⟩
      | cancelled => exact absurd rfl hnc

/-- A concrete loop trace: a successful cycle, a failing cycle, and
another successful cycle. -/
def c10trace : List (Bool × CycleResult) :=
  [(true, .ok), (true, .err "boom"), (true, .ok)]

/-- Witness for C10 at a concrete trace: the failing middle cycle does
not terminate the loop, all three cycles run, and the error is logged. -/
theorem C10_isolation_witness :
    (loopRun 300 c10trace).2.2 = none ∧
    (loopRun 300 c10trace).1.length = c10trace.length ∧
    (loopRun 300 c10trace).2.1 = c10trace.filterMap (fun ev =>
      match ev.2 with | CycleResult.err m => some m | _ => none) :=
  (C10_fault_isolation 300).2.2 c10trace (by decide)

end MemoryMCP
namespace MemoryMCP
open DreamerAI

theorem foldl_groups_spec : ∀ (ms : List QueryResult)
    (gs : List (Jval × List QueryResult)) (pre : List QueryResult),
    ((gs.map Prod.fst).Nodup) →
    (∀ g ∈ gs, jvalTruthy g.1 = true ∧ g.2 = pre.filter (isProjMember g.1)) →
    (∀ p, jvalTruthy p = true →
      ((∃ g ∈ gs, g.1 = p) ↔ pre.filter (isProjMember p) ≠ [])) →
    (((ms.foldl groupStep gs).map Prod.fst).Nodup) ∧
    (∀ g ∈ ms.foldl groupStep gs, jvalTruthy g.1 = true ∧
      g.2 = (pre ++ ms).filter (isProjMember g.1)) ∧
    (∀ p, jvalTruthy p = true →
      ((∃ g ∈ ms.foldl groupStep gs, g.1 = p) ↔ (pre ++ ms).filter (isProjMember p) ≠ [])) := by
  intro ms
  induction ms with
  | nil =>
    intro gs pre h1 h2 h3
    simp only [List.foldl_nil, List.append_nil]
    exact ⟨h1, h2, h3⟩
  | cons m ms ih =>
    intro gs pre h1 h2 h3
    have hstep : (m :: ms).foldl groupStep gs = ms.foldl groupStep (groupStep gs m) := rfl
    rw [hstep, show pre ++ m :: ms = (pre ++ [m]) ++ ms from by simp]
    cases hctx : ctxGet m.context "project" with
    | none =>
      have hg : groupStep gs m = gs := by simp [groupStep, hctx]
      rw [hg]
      apply ih gs (pre ++ [m]) h1
      · intro g hgm
        obtain ⟨ht, hm⟩ := h2 g hgm
        refine ⟨ht, ?_⟩
        rw [List.filter_append]
        simp [isProjMember_none (p := g.1) hctx, hm]
      · intro p hp
        rw [List.filter_append]
        simp only [List.filter_cons, isProjMember_none (p := p) hctx]
        simpa using h3 p hp
    | some v =>
      by_cases htv : jvalTruthy v
      · have hg : groupStep gs m = groupInsert gs v m := by simp [groupStep, hctx, htv]
        rw [hg]
        apply ih (groupInsert gs v m) (pre ++ [m])
        · unfold groupInsert
          by_cases hkey : gs.any (fun g => g.1 == v)
          · rw [if_pos hkey]
            have hmapkeys : (gs.map (fun g => if g.1 == v then (g.1, g.2 ++ [m]) else g)).map Prod.fst
                = gs.map Prod.fst := by
              rw [List.map_map]
              apply List.map_congr_left
              intro g _
              simp only [Function.comp]
              split <;> rfl
            rw [hmapkeys]
            exact h1
          · rw [if_neg hkey]
            simp only [List.map_append, List.map_cons, List.map_nil]
            rw [List.nodup_append]
            refine ⟨h1, List.nodup_singleton v, ?_⟩
            intro a ha hb
            simp only [List.mem_singleton] at hb
            subst hb
            simp only [List.mem_map] at ha
            obtain ⟨g, hgm, hfst⟩ := ha
            simp only [List.any_eq_true, Bool.not_eq_true] at hkey
            exact hkey ⟨g, hgm, by simp [hfst]⟩
        · intro g hgm
          unfold groupInsert at hgm
          by_cases hkey : gs.any (fun g => g.1 == v)
          · rw [if_pos hkey] at hgm
            obtain ⟨g0, hg0, hfg⟩ := List.mem_map.mp hgm
            obtain ⟨ht0, hm0⟩ := h2 g0 hg0
            by_cases hg0v : g0.1 == v
            · rw [if_pos hg0v] at hfg
              subst hfg
              simp only [beq_iff_eq] at hg0v
              refine ⟨ht0, ?_⟩
              rw [List.filter_append, hm0]
              simp [hg0v, isProjMember_self hctx htv]
            · rw [if_neg (by simpa using hg0v)] at hfg
              subst hfg
              simp only [beq_iff_eq] at hg0v
              refine ⟨ht0, ?_⟩
              rw [List.filter_append, hm0]
              simp [isProjMember_ne hctx (fun hh => hg0v hh.symm)]
          · rw [if_neg hkey] at hgm
            rcases List.mem_append.mp hgm with hgm | hgm
            · obtain ⟨ht0, hm0⟩ := h2 g hgm
              refine ⟨ht0, ?_⟩
              rw [List.filter_append, hm0]
              have hgv : g.1 ≠ v := by
                intro hh
                have hany : gs.any (fun g => g.1 == v) = true :=
                  List.any_eq_true.mpr ⟨g, hgm, by simp [hh]⟩
                exact hkey hany
              simp [isProjMember_ne hctx (fun hh => hgv hh.symm)]
            · simp only [List.mem_singleton] at hgm
              subst hgm
              refine ⟨htv, ?_⟩
              have hpre : pre.filter (isProjMember v) = [] := by
                by_contra hne
                have hexists := (h3 v htv).mpr hne
                obtain ⟨g, hgm, hfst⟩ := hexists
                have hany : gs.any (fun g => g.1 == v) = true :=
                  List.any_eq_true.mpr ⟨g, hgm, by simp [hfst]⟩
                exact hkey hany
              rw [List.filter_append, hpre]
              simp [isProjMember_self hctx htv]
        · intro p hp
          rw [List.filter_append]
          by_cases hpv : p = v
          · subst hpv
            constructor
            · intro _
              simp [List.filter_cons, isProjMember_self hctx htv]
            · intro _
              unfold groupInsert
              by_cases hkey : gs.any (fun g => g.1 == p)
              · rw [if_pos hkey]
                simp only [List.any_eq_true, beq_iff_eq] at hkey
                obtain ⟨g, hgm, hfst⟩ := hkey
                refine ⟨(g.1, g.2 ++ [m]), ?_, hfst⟩
                apply List.mem_map.mpr
                exact ⟨g, hgm, by simp [hfst]⟩
              · rw [if_neg hkey]
                exact ⟨(p, [m]), by simp, rfl⟩
          · have hfm : isProjMember p m = false := isProjMember_ne hctx (fun hh => hpv hh.symm)
            have hfilter_eq : (pre.filter (isProjMember p) ++ [m].filter (isProjMember p)) =
                pre.filter (isProjMember p) := by simp [List.filter_cons, hfm]
            rw [hfilter_eq]
            rw [← h3 p hp]
            unfold groupInsert
            by_cases hkey : gs.any (fun g => g.1 == v)
            · rw [if_pos hkey]
              constructor
              · rintro ⟨g, hgm, hfst⟩
                obtain ⟨g0, hg0, hfg⟩ := List.mem_map.mp hgm
                by_cases hg0v : g0.1 == v
                · rw [if_pos hg0v] at hfg
                  subst hfg
                  simp only at hfst
                  exact ⟨g0, hg0, hfst⟩
                · rw [if_neg (by simpa using hg0v)] at hfg
                  subst hfg
                  exact ⟨g0, hg0, hfst⟩
              · rintro ⟨g, hgm, hfst⟩
                by_cases hgv : g.1 == v
                · refine ⟨(g.1, g.2 ++ [m]), List.mem_map.mpr ⟨g, hgm, by simp [hgv]⟩, hfst⟩
                · refine ⟨g, List.mem_map.mpr ⟨g, hgm, by simp [hgv]⟩, hfst⟩
            · rw [if_neg hkey]
              constructor
              · rintro ⟨g, hgm, hfst⟩
                rcases List.mem_append.mp hgm with hgm | hgm
                · exact ⟨g, hgm, hfst⟩
                · simp only [List.mem_singleton] at hgm
                  subst hgm
                  exact absurd hfst.symm hpv
              · rintro ⟨g, hgm, hfst⟩
                exact ⟨g, List.mem_append.mpr (Or.inl hgm), hfst⟩
      · have hg : groupStep gs m = gs := by
          simp [groupStep, hctx, htv]
        rw [hg]
        apply ih gs (pre ++ [m]) h1
        · intro g hgm
          obtain ⟨ht, hm⟩ := h2 g hgm
          refine ⟨ht, ?_⟩
          rw [List.filter_append]
          simp [isProjMember_untruthy hctx (by simpa using htv) ht, hm]
        · intro p hp
          rw [List.filter_append]
          simp only [List.filter_cons, isProjMember_untruthy hctx (by simpa using htv) hp]
          simpa using h3 p hp

theorem projectGroups_spec (ms : List QueryResult) :
    (((projectGroups ms).map Prod.fst).Nodup) ∧
    (∀ g ∈ projectGroups ms, jvalTruthy g.1 = true ∧
      g.2 = ms.filter (isProjMember g.1)) ∧
    (∀ p, jvalTruthy p = true →
      ((∃ g ∈ projectGroups ms, g.1 = p) ↔ ms.filter (isProjMember p) ≠ [])) := by
  have h := foldl_groups_spec ms [] []
    (by simp) (by intro g hg; cases hg) (by intro p _; simp)
  simpa [projectGroups] using h

theorem eligibleGroups_keys_nodup (db : DB) :
    ((eligibleGroups db).map Prod.fst).Nodup := by
  unfold eligibleGroups
  have h := (projectGroups_spec (MemoryCore.query_memories db "" 100)).1
  exact List.Nodup.sublist (List.Sublist.map Prod.fst (List.filter_sublist _)) h

theorem eligibleGroups_mem {db : DB} {g : Jval × List QueryResult}
    (h : g ∈ eligibleGroups db) :
    jvalTruthy g.1 = true ∧
    g.2 = (MemoryCore.query_memories db "" 100).filter (isProjMember g.1) ∧
    3 ≤ g.2.length := by
  unfold eligibleGroups at h
  have h2 := List.mem_filter.mp h
  have h3 := (projectGroups_spec (MemoryCore.query_memories db "" 100)).2.1 g h2.1
  exact ⟨h3.1, h3.2, by simpa using h2.2⟩

end MemoryMCP
namespace MemoryMCP
open DreamerAI

theorem fold_creates (ids : Nat → String) (now : Nat) :
    ∀ (el : List (Jval × List QueryResult)) (db0 : DB) (idx bound : Nat),
    ((el.map Prod.fst).Nodup) →
    (idx + el.length ≤ bound) →
    (∀ g ∈ el, ∀ n ∈ db0, MemoryDatabase.rowMatches (summaryMarker g.1) n = false) →
    (∀ g ∈ el, ∀ h ∈ el, g.1 ≠ h.1 →
      MemoryDatabase.rowMatches (summaryMarker g.1) (summNode ids now 0 h) = false) →
    (∀ i, idx ≤ i → i < bound → ∀ n ∈ db0, n.id ≠ ids i) →
    (∀ i j, i < bound → j < bound → ids i = ids j → i = j) →
    el.foldlM (fun acc g => createProjectSummary acc.1 ids acc.2 now g.1 g.2) (db0, idx) =
      .ok (db0 ++ mkSummaries ids now idx el, idx + el.length) := by
  intro el
  induction el with
  | nil =>
    intro db0 idx bound _ _ _ _ _ _
    simp [mkSummaries]
    rfl
  | cons g gs ih =>
    intro db0 idx bound hnodup hbound hnomatch hcross hfresh hinj
    have hchk : MemoryCore.query_memories db0 (summaryMarker g.1) 10 = [] := by
      rw [query_empty_iff db0 _ 10 (by omega)]
      exact hnomatch g (List.mem_cons_self g gs)
    have hidx : idx < bound := by
      simp only [List.length_cons] at hbound
      omega
    have hcreate := @createProjectSummary_create db0 ids idx now g.1 g.2 hchk
      (fun n hn => hfresh idx (le_refl idx) hidx n hn)
    have hfoldstep : (g :: gs).foldlM
        (fun acc h => createProjectSummary acc.1 ids acc.2 now h.1 h.2) (db0, idx) =
        (createProjectSummary db0 ids idx now g.1 g.2) >>= (fun acc =>
          gs.foldlM (fun acc h => createProjectSummary acc.1 ids acc.2 now h.1 h.2) acc) := by
      rfl
    rw [hfoldstep, hcreate]
    have hnodup2 : (g.1 :: gs.map Prod.fst).Nodup := by simpa using hnodup
    have hkeys : g.1 ∉ gs.map Prod.fst := (List.nodup_cons.mp hnodup2).1
    have hih := ih (db0 ++ [summNode ids now idx (g.1, g.2)]) (idx + 1) bound
      (List.nodup_cons.mp hnodup2).2
      (by simp only [List.length_cons] at hbound; omega)
      ?hnm ?hcr ?hfr hinj
    case hnm =>
      intro h hh n hn
      rcases List.mem_append.mp hn with hn | hn
      · exact hnomatch h (List.mem_cons_of_mem g hh) n hn
      · simp only [List.mem_singleton] at hn
        subst hn
        have hne : h.1 ≠ g.1 := by
          intro heq
          exact hkeys (heq ▸ List.mem_map_of_mem Prod.fst hh)
        have hcr := hcross h (List.mem_cons_of_mem g hh) g (List.mem_cons_self g gs) hne
        calc MemoryDatabase.rowMatches (summaryMarker h.1) (summNode ids now idx (g.1, g.2))
            = MemoryDatabase.rowMatches (summaryMarker h.1) (summNode ids now 0 g) := by
              cases g; rfl
          _ = false := hcr
    case hcr =>
      intro a ha b hb hne
      exact hcross a (List.mem_cons_of_mem g ha) b (List.mem_cons_of_mem g hb) hne
    case hfr =>
      intro i hge hi n hn
      rcases List.mem_append.mp hn with hn | hn
      · exact hfresh i (by omega) hi n hn
      · simp only [List.mem_singleton] at hn
        subst hn
        intro heq
        have hij : idx = i := hinj idx i hidx hi (by simpa [summNode, MemoryCore.newNode] using heq)
        omega
    rw [show (Except.ok (db0 ++ [summNode ids now idx (g.1, g.2)], idx + 1) >>= (fun acc =>
        gs.foldlM (fun acc h => createProjectSummary acc.1 ids acc.2 now h.1 h.2) acc)) =
        gs.foldlM (fun acc h => createProjectSummary acc.1 ids acc.2 now h.1 h.2)
          (db0 ++ [summNode ids now idx (g.1, g.2)], idx + 1) from rfl]
    rw [hih]
    have hms : summNode ids now idx (g.1, g.2) = summNode ids now idx g := by
      cases g; rfl
    rw [hms]
    have happ : db0 ++ [summNode ids now idx g] ++ mkSummaries ids now (idx + 1) gs =
        db0 ++ mkSummaries ids now idx (g :: gs) := by
      simp [mkSummaries]
    rw [happ]
    have hlen : idx + 1 + gs.length = idx + (g :: gs).length := by
      simp only [List.length_cons]
      omega
    rw [hlen]

end MemoryMCP
namespace MemoryMCP
open DreamerAI

theorem rowMatches_false_not_startsWith {q : String} {n : MemoryNode}
    (h : MemoryDatabase.rowMatches q n = false) :
    startsWithCS q.data n.content.data = false := by
  by_contra hc
  simp only [Bool.not_eq_false] at hc
  rw [rowMatches_of_startsWith hc] at h
  cases h

theorem countP_mkSummaries_marker (ids : Nat → String) (now : Nat) (P : Jval) :
    ∀ (el : List (Jval × List QueryResult)) (i : Nat),
    (∀ h ∈ el, h.1 ≠ P →
      MemoryDatabase.rowMatches (summaryMarker P) (summNode ids now 0 h) = false) →
    (mkSummaries ids now i el).countP
      (fun n => startsWithCS (summaryMarker P).data n.content.data) =
      el.countP (fun h => h.1 == P) := by
  intro el
  induction el with
  | nil => intro i _; rfl
  | cons g gs ih =>
    intro i hcross
    simp only [mkSummaries, List.countP_cons]
    rw [ih (i + 1) (fun h hh => hcross h (List.mem_cons_of_mem g hh))]
    by_cases hgP : g.1 = P
    · have hsw : startsWithCS (summaryMarker P).data (summNode ids now i g).content.data = true := by
        rw [← hgP]
        exact startsWith_summNode ids now i g
      rw [hsw]
      simp [hgP]
    · have hrm := hcross g (List.mem_cons_self g gs) hgP
      have hrm2 : MemoryDatabase.rowMatches (summaryMarker P) (summNode ids now i g) = false := by
        rw [show MemoryDatabase.rowMatches (summaryMarker P) (summNode ids now i g) =
          MemoryDatabase.rowMatches (summaryMarker P) (summNode ids now 0 g) from rfl]
        exact hrm
      rw [rowMatches_false_not_startsWith hrm2]
      simp [hgP]

theorem countP_keys_one {el : List (Jval × List QueryResult)} {P : Jval}
    (hnodup : (el.map Prod.fst).Nodup) (hmem : ∃ g ∈ el, g.1 = P) :
    el.countP (fun h => h.1 == P) = 1 := by
  have h1 : el.countP (fun h => h.1 == P) = (el.map Prod.fst).countP (fun k => k == P) := by
    rw [List.countP_map]
    rfl
  rw [h1]
  have h2 : (el.map Prod.fst).countP (fun k => k == P) = (el.map Prod.fst).count P := rfl
  rw [h2]
  apply List.count_eq_one_of_mem hnodup
  obtain ⟨g, hg, hfst⟩ := hmem
  exact hfst ▸ List.mem_map_of_mem Prod.fst hg

theorem fold_skips (ids : Nat → String) (now : Nat) :
    ∀ (l : List (Jval × List QueryResult)) (db : DB) (idx : Nat),
    (∀ g ∈ l, MemoryCore.query_memories db (summaryMarker g.1) 10 ≠ []) →
    l.foldlM (fun acc g => createProjectSummary acc.1 ids acc.2 now g.1 g.2) (db, idx) =
      .ok (db, idx) := by
  intro l
  induction l with
  | nil => intro db idx _; rfl
  | cons g gs ih =>
    intro db idx h
    have hskip := @createProjectSummary_skip db ids idx now g.1 g.2
      (h g (List.mem_cons_self g gs))
    have hfoldstep : (g :: gs).foldlM
        (fun acc h => createProjectSummary acc.1 ids acc.2 now h.1 h.2) (db, idx) =
        (createProjectSummary db ids idx now g.1 g.2) >>= (fun acc =>
          gs.foldlM (fun acc h => createProjectSummary acc.1 ids acc.2 now h.1 h.2) acc) := rfl
    rw [hfoldstep, hskip]
    exact ih db idx (fun g' hg' => h g' (List.mem_cons_of_mem g hg'))

theorem summNode_mem_mkSummaries (ids : Nat → String) (now : Nat) :
    ∀ (el : List (Jval × List QueryResult)) (i : Nat) (g : Jval × List QueryResult),
    g ∈ el → ∃ j, summNode ids now j g ∈ mkSummaries ids now i el := by
  intro el
  induction el with
  | nil => intro i g h; cases h
  | cons g0 gs ih =>
    intro i g h
    rcases List.mem_cons.mp h with h | h
    · subst h
      exact ⟨i, List.mem_cons_self _ _⟩
    · obtain ⟨j, hj⟩ := ih (i + 1) g h
      exact ⟨j, List.mem_cons_of_mem _ hj⟩

theorem ctxGet_summaryContext_project (p : Jval) (count : Nat) :
    ctxGet (summaryContext p count) "project" = some p := rfl

theorem isProjMember_toQR_summNode (Q : Jval) (ids : Nat → String) (now i : Nat)
    (g : Jval × List QueryResult) :
    isProjMember Q (MemoryCore.toQR (summNode ids now i g)) =
      ((g.1 == Q) && jvalTruthy Q) := by
  unfold isProjMember
  rw [show (MemoryCore.toQR (summNode ids now i g)).context =
    summaryContext g.1 g.2.length from rfl]
  rw [ctxGet_summaryContext_project]
  simp

end MemoryMCP
namespace MemoryMCP
open DreamerAI

theorem mkSummaries_length (ids : Nat → String) (now : Nat) :
    ∀ (el : List (Jval × List QueryResult)) (i : Nat),
    (mkSummaries ids now i el).length = el.length := by
  intro el
  induction el with
  | nil => intro i; rfl
  | cons g gs ih => intro i; simp [mkSummaries, ih]

theorem mem_mkSummaries_inv (ids : Nat → String) (now : Nat) :
    ∀ (el : List (Jval × List QueryResult)) (i : Nat) (s : MemoryNode),
    s ∈ mkSummaries ids now i el → ∃ j g, g ∈ el ∧ s = summNode ids now j g := by
  intro el
  induction el with
  | nil => intro i s h; cases h
  | cons g0 gs ih =>
    intro i s h
    rcases List.mem_cons.mp h with h | h
    · exact ⟨i, g0, List.mem_cons_self _ _, h⟩
    · obtain ⟨j, g, hg, hs⟩ := ih (i + 1) s h
      exact ⟨j, g, List.mem_cons_of_mem _ hg, hs⟩

theorem filter_length_countP (db : DB) (h100 : db.length ≤ 100) (p : QueryResult → Bool) :
    ((MemoryCore.query_memories db "" 100).filter p).length =
      db.countP (fun n => p (MemoryCore.toQR n)) := by
  rw [← List.countP_eq_length_filter]
  rw [(listing_perm db h100).countP_eq]
  rw [List.countP_map]
  rfl

theorem keys_transfer {db : DB} {ids : Nat → String} {now : Nat} {Q : Jval}
    (h100 : db.length + (eligibleGroups db).length ≤ 100)
    (hQt : jvalTruthy Q = true)
    (hsize2 : 3 ≤ ((MemoryCore.query_memories
        (db ++ mkSummaries ids now 0 (eligibleGroups db)) "" 100).filter
        (isProjMember Q)).length) :
    ∃ g1 ∈ eligibleGroups db, g1.1 = Q := by
  have hlen1 : db.length ≤ 100 := by omega
  have hlen2 : (db ++ mkSummaries ids now 0 (eligibleGroups db)).length ≤ 100 := by
    rw [List.length_append, mkSummaries_length]
    exact h100
  rw [filter_length_countP _ hlen2, List.countP_append] at hsize2
  by_contra hkey
  have hs0 : (mkSummaries ids now 0 (eligibleGroups db)).countP
      (fun n => isProjMember Q (MemoryCore.toQR n)) = 0 := by
    apply List.countP_eq_zero.mpr
    intro s hs
    obtain ⟨j, g, hg, rfl⟩ := mem_mkSummaries_inv ids now (eligibleGroups db) 0 s hs
    rw [isProjMember_toQR_summNode]
    have hgQ : g.1 ≠ Q := fun hh => hkey ⟨g, hg, hh⟩
    simp [hgQ]
  rw [hs0] at hsize2
  have h3db : 3 ≤ db.countP (fun n => isProjMember Q (MemoryCore.toQR n)) := by omega
  have hL1 : 3 ≤ ((MemoryCore.query_memories db "" 100).filter (isProjMember Q)).length := by
    rw [filter_length_countP _ hlen1]
    exact h3db
  have hne : (MemoryCore.query_memories db "" 100).filter (isProjMember Q) ≠ [] := by
    intro hnil
    rw [hnil] at hL1
    simp at hL1
  obtain ⟨g1, hg1, hfst⟩ :=
    ((projectGroups_spec (MemoryCore.query_memories db "" 100)).2.2 Q hQt).mpr hne
  have hmemb := (projectGroups_spec (MemoryCore.query_memories db "" 100)).2.1 g1 hg1
  have hg1el : g1 ∈ eligibleGroups db := by
    unfold eligibleGroups
    apply List.mem_filter.mpr
    refine ⟨hg1, ?_⟩
    simp only [decide_eq_true_eq]
    rw [hmemb.2, hfst]
    exact hL1
  exact hkey ⟨g1, hg1el, hfst⟩

end MemoryMCP
namespace MemoryMCP
open DreamerAI

/-- Claim C8 (amended): on a corpus whose nodes fit the 100-node listing
together with the summaries to be created, in which no pre-existing node
matches any eligible project's summary marker, in which no generated
summary matches a different eligible project's marker, and with fresh,
injective summary ids, running SummaryBuilder once creates exactly one
summary node per eligible project (a group of at least 3 members sharing a
truthy `context.project`), and running it a second time on the result
creates zero new nodes. -/
theorem C8_summary_idempotence (db : DB) (ids ids2 : Nat → String) (now now2 : Nat)
    (h100 : db.length + (eligibleGroups db).length ≤ 100)
    (hnoblock : ∀ g ∈ eligibleGroups db, ∀ n ∈ db,
      MemoryDatabase.rowMatches (summaryMarker g.1) n = false)
    (hcross : ∀ g ∈ eligibleGroups db, ∀ h ∈ eligibleGroups db, g.1 ≠ h.1 →
      MemoryDatabase.rowMatches (summaryMarker g.1) (summNode ids now 0 h) = false)
    (hfresh : ∀ i, i < (eligibleGroups db).length → ∀ n ∈ db, n.id ≠ ids i)
    (hinj : ∀ i, i < (eligibleGroups db).length → ∀ j, j < (eligibleGroups db).length →
      ids i = ids j → i = j) :
    ∃ db1 : DB,
      createSummaries db ids 0 now = .ok (db1, (eligibleGroups db).length) ∧
      (∀ g ∈ eligibleGroups db,
        db1.countP (fun n => startsWithCS (summaryMarker g.1).data n.content.data) = 1) ∧
      createSummaries db1 ids2 0 now2 = .ok (db1, 0) := by
  refine ⟨db ++ mkSummaries ids now 0 (eligibleGroups db), ?_, ?_, ?_⟩
  · unfold createSummaries
    rw [fold_creates ids now (eligibleGroups db) db 0 (eligibleGroups db).length
      (eligibleGroups_keys_nodup db) (by omega) hnoblock hcross
      (fun i _ hi n hn => hfresh i hi n hn) (fun i j hi hj => hinj i hi j hj)]
    rw [Nat.zero_add]
  · intro g hg
    rw [List.countP_append]
    have hdb0 : db.countP (fun n => startsWithCS (summaryMarker g.1).data n.content.data) = 0 := by
      apply List.countP_eq_zero.mpr
      intro n hn
      simp only [Bool.not_eq_true]
      exact rowMatches_false_not_startsWith (hnoblock g hg n hn)
    rw [hdb0, Nat.zero_add]
    rw [countP_mkSummaries_marker ids now g.1 (eligibleGroups db) 0
      (fun h hh hne => hcross g hg h hh (fun hQ => hne hQ.symm))]
    exact countP_keys_one (eligibleGroups_keys_nodup db) ⟨g, hg, rfl⟩
  · unfold createSummaries
    apply fold_skips
    intro g2 hg2
    obtain ⟨hQt, hmemb, hsz⟩ := eligibleGroups_mem hg2
    have hsize2 : 3 ≤ ((MemoryCore.query_memories
        (db ++ mkSummaries ids now 0 (eligibleGroups db)) "" 100).filter
        (isProjMember g2.1)).length := by
      rw [← hmemb]
      exact hsz
    obtain ⟨g1, hg1, hfst⟩ := keys_transfer h100 hQt hsize2
    obtain ⟨j, hj⟩ := summNode_mem_mkSummaries ids now (eligibleGroups db) 0 g1 hg1
    have hmem1 : summNode ids now j g1 ∈ db ++ mkSummaries ids now 0 (eligibleGroups db) :=
      List.mem_append.mpr (Or.inr hj)
    intro hq
    have hall := (query_empty_iff _ _ 10 (by omega)).mp hq
    have hrm := hall (summNode ids now j g1) hmem1
    rw [← hfst] at hrm
    rw [rowMatches_of_startsWith (startsWith_summNode ids now j g1)] at hrm
    cases hrm

end MemoryMCP
namespace MemoryMCP
open DreamerAI

theorem summNode_content (ids : Nat → String) (now idx : Nat)
    (g : Jval × List QueryResult) :
    (summNode ids now idx g).content = summaryMarker g.1 ++
      (":\n\nTotal memories: " ++ toString g.2.length ++
       "\nRecent activities:\n" ++ String.intercalate "\n" (recentActivities g.2) ++
       "\n\nThis is an automatically generated summary created by the Dreamer AI.\nLast updated: " ++
       fmtTime now) := by
  simp [summNode, MemoryCore.newNode, summaryContent, String.append_assoc]

/-- Claim C9 (amended): every summary node created by
`_create_project_summary` for a project group has content beginning with
`"Summary of {project}"` and context exactly
`{type: "summary", project, source: "dreamer_ai", summarized_count}`
(the source tag is `"dreamer_ai"`, not the spec's `"discovery"`), and
keeps the default `node_type = "normal"`. -/
theorem C9_summary_shape (db : DB) (ids : Nat → String) (idx now : Nat)
    (p : Jval) (ms : List QueryResult)
    (hchk : MemoryCore.query_memories db (summaryMarker p) 10 = [])
    (hfresh : ∀ n ∈ db, n.id ≠ ids idx) :
    ∃ (node : MemoryNode) (rest : String),
      createProjectSummary db ids idx now p ms = .ok (db ++ [node], idx + 1) ∧
      node.content = summaryMarker p ++ rest ∧
      node.context = [("type", Jval.str "summary"), ("project", p),
        ("source", Jval.str "dreamer_ai"), ("summarized_count", Jval.num ms.length)] ∧
      node.node_type = "normal" := by
  refine ⟨summNode ids now idx (p, ms), _,
    createProjectSummary_create hchk hfresh, summNode_content ids now idx (p, ms), rfl, rfl⟩

/-- A concrete three-node corpus, all in project X. -/
def c9db : DB :=
  [sampleNode "a" "Meeting A" [("project", Jval.str "X")] 3,
   sampleNode "b" "Meeting B" [("project", Jval.str "X")] 2,
   sampleNode "c" "Meeting C" [("project", Jval.str "X")] 1]

/-- A concrete id supply for the first run. -/
def c9ids : Nat → String := fun i => "sum" ++ toString i

/-- A concrete id supply for the second run. -/
def c9ids2 : Nat → String := fun i => "tum" ++ toString i

/-- Counterexample to claim C9 as stated: on a three-node project-X
corpus the created summary's `context.source` is `"dreamer_ai"`, not the
`"discovery"` the claim requires. -/
theorem C9_counterexample :
    DreamerAI.createSummaries c9db c9ids 0 9 =
      .ok (c9db ++ [summNode c9ids 9 0 (Jval.str "X", MemoryCore.query_memories c9db "" 100)], 1) ∧
    ctxGet (summNode c9ids 9 0
        (Jval.str "X", MemoryCore.query_memories c9db "" 100)).context "source" =
      some (Jval.str "dreamer_ai") ∧
    Jval.str "dreamer_ai" ≠ Jval.str "discovery" :=
  ⟨by rfl, by rfl, by decide⟩

/-- Witness for the amended C9 at a concrete input. -/
theorem C9_shape_witness :
    ∃ (node : MemoryNode) (rest : String),
      createProjectSummary c9db c9ids 0 9 (Jval.str "X")
          (MemoryCore.query_memories c9db "" 100) = .ok (c9db ++ [node], 0 + 1) ∧
      node.content = summaryMarker (Jval.str "X") ++ rest ∧
      node.context = [("type", Jval.str "summary"), ("project", Jval.str "X"),
        ("source", Jval.str "dreamer_ai"),
        ("summarized_count", Jval.num (MemoryCore.query_memories c9db "" 100).length)] ∧
      node.node_type = "normal" :=
  C9_summary_shape c9db c9ids 0 9 (Jval.str "X") (MemoryCore.query_memories c9db "" 100)
    (by decide) (by decide)

/-- The three-node corpus plus a node that merely mentions the marker. -/
def c8db : DB :=
  c9db ++ [sampleNode "d" "we discussed the Summary of X earlier" [] 0]

/-- Counterexample to claim C8 as stated: a corpus with an eligible
project X plus one unrelated node whose content merely contains
`"Summary of X"` — the idempotence check is a substring search, so it
finds the unrelated node and the run creates zero summary nodes, leaving
no summary for the eligible project (and a second run on the unchanged
database does the same). -/
theorem C8_counterexample :
    DreamerAI.createSummaries c8db c9ids 0 9 = .ok (c8db, 0) ∧
    (∃ g ∈ DreamerAI.eligibleGroups c8db, g.1 = Jval.str "X" ∧ 3 ≤ g.2.length) ∧
    c8db.countP (fun n =>
      startsWithCS (DreamerAI.summaryMarker (Jval.str "X")).data n.content.data) = 0 :=
  ⟨by rfl, by decide, by decide⟩

/-- Witness for the amended C8 at a concrete three-node corpus. -/
theorem C8_idempotence_witness :
    ∃ db1 : DB,
      DreamerAI.createSummaries c9db c9ids 0 9 =
        .ok (db1, (DreamerAI.eligibleGroups c9db).length) ∧
      (∀ g ∈ DreamerAI.eligibleGroups c9db,
        db1.countP (fun n =>
          startsWithCS (DreamerAI.summaryMarker g.1).data n.content.data) = 1) ∧
      DreamerAI.createSummaries db1 c9ids2 0 20 = .ok (db1, 0) :=
  C8_summary_idempotence c9db c9ids c9ids2 9 20 (by decide) (by decide) (by decide) (by decide) (by decide)

end MemoryMCP
